import Mathlib

/-!
# StimFit: hard-pulse RF simulation kernel (RF_Tools/pulse_simMEX.c)

Shallow embedding of `mexFunction` from `src/RF_Tools/pulse_simMEX.c`.

Modelling choices.
* `double` values are elements of an arbitrary commutative ring `α`; the
  theorems are stated over `ℝ` (exact real arithmetic), and the same
  definitions evaluate over `ℤ` or `ℚ`.
* A `double *` obtained from `mxGetPr` is the list of the matrix elements in
  column-major order; every read and write of the C code is bounds checked
  and yields `none` when the index is outside the array.
* `mwSize` indices are natural numbers: a buffer of `3*Nz` doubles exists in
  memory, so `3*i + 2` never wraps.
* The in-place working buffer `pMout` is threaded through the loops as
  explicit state.
-/

namespace StimFit

/-- A MATLAB real matrix as seen through the MEX interface: the number of
rows, the number of columns, and the column-major data behind `mxGetPr`. -/
structure MxArray (α : Type) where
  M : Nat
  N : Nat
  pr : List α
deriving DecidableEq

section Embedding

variable {α : Type}

/-- The data pointer of a matrix (`mxGetPr`). -/
def mxGetPr (a : MxArray α) : List α := a.pr

/-- The number of columns of a matrix (`mxGetN`). -/
def mxGetN (a : MxArray α) : Nat := a.N

/-- A fresh zero-filled real matrix with `m` rows and `n` columns
(`mxCreateDoubleMatrix(m, n, mxREAL)`). -/
def mxCreateDoubleMatrix [Zero α] (m n : Nat) : MxArray α :=
  ⟨m, n, List.replicate (m * n) 0⟩

/-- The read `p[k]`; `none` when `k` is outside the array. -/
def rd (p : List α) (k : Nat) : Option α := p[k]?

/-- The write `p[k] = v`; `none` when `k` is outside the array. -/
def wr (p : List α) (k : Nat) (v : α) : Option (List α) :=
  if k < p.length then some (p.set k v) else none

/-- The loop `for (i = 0; i < n; i++) body`, threading the state and stopping
at the first failing iteration. -/
def forLoop {σ : Type} (n : Nat) (body : Nat → σ → Option σ) (s : σ) : Option σ :=
  (List.range n).foldlM (fun st i => body i st) s

/-- Body of the initialisation loop (lines 34-37): copy vector `i` of `pMin`
into `pMout`. -/
def initBody (pMin : List α) (i : Nat) (pMout : List α) : Option (List α) := do
  let ind := 3 * i
  let pMout ← wr pMout ind (← rd pMin ind)
  let pMout ← wr pMout (ind + 1) (← rd pMin (ind + 1))
  wr pMout (ind + 2) (← rd pMin (ind + 2))

/-- The initialisation loop (lines 33-38). -/
def initLoop (Nz : Nat) (pMin pMout : List α) : Option (List α) :=
  forLoop Nz (initBody pMin) pMout

variable [CommRing α]

/-- Body of the precession loop (lines 45-49).  The tables `pCOS` and `pSIN`
are read-only, so each is read once here for its two occurrences. -/
def precessBody (pCOS pSIN : List α) (i : Nat) (pMout : List α) : Option (List α) := do
  let ind := 3 * i
  let Mx ← rd pMout ind
  let My ← rd pMout (ind + 1)
  let c ← rd pCOS i
  let s ← rd pSIN i
  let pMout ← wr pMout ind (c * Mx + s * My)
  wr pMout (ind + 1) (-s * Mx + c * My)

/-- The precession loop over all positions (lines 44-51). -/
def precessionLoop (Nz : Nat) (pCOS pSIN pMout : List α) : Option (List α) :=
  forLoop Nz (precessBody pCOS pSIN) pMout

/-- Body of the RF tip loop (lines 55-68) at time index `iNt`.  The tables
`pCTRF` and `pSTRF` are read-only, so each is read once here for its several
occurrences in the three assignments. -/
def rfTipBody (pCTRF pSTRF : List α) (cpRF spRF : α) (iNt i : Nat) (pMout : List α) :
    Option (List α) := do
  let ind := 3 * i
  let Mx ← rd pMout ind
  let My ← rd pMout (ind + 1)
  let Mz ← rd pMout (ind + 2)
  let ct ← rd pCTRF iNt
  let st ← rd pSTRF iNt
  let pMout ← wr pMout ind
    (Mx * (cpRF * cpRF + ct * spRF * spRF) +
     My * (cpRF * spRF - ct * cpRF * spRF) -
     Mz * (spRF * st))
  let pMout ← wr pMout (ind + 1)
    (My * (ct * cpRF * cpRF + spRF * spRF) +
     Mx * (cpRF * spRF - cpRF * spRF * ct) +
     Mz * (cpRF * st))
  wr pMout (ind + 2)
    (Mz * ct -
     My * cpRF * st +
     Mx * spRF * st)

/-- The RF tip loop over all positions (lines 54-69) at time index `iNt`. -/
def rfTipLoop (Nz : Nat) (pCTRF pSTRF : List α) (cpRF spRF : α) (iNt : Nat)
    (pMout : List α) : Option (List α) :=
  forLoop Nz (rfTipBody pCTRF pSTRF cpRF spRF iNt) pMout

/-- Body of the time loop (lines 42-69): the precession loop, then the RF tip
loop of time index `iNt`. -/
def timeBody (Nz : Nat) (pCOS pSIN pCTRF pSTRF : List α) (cpRF spRF : α) (iNt : Nat)
    (pMout : List α) : Option (List α) := do
  let pMout ← precessionLoop Nz pCOS pSIN pMout
  rfTipLoop Nz pCTRF pSTRF cpRF spRF iNt pMout

/-- The time loop (lines 41-70). -/
def timeLoop (Nz Nt : Nat) (pCOS pSIN pCTRF pSTRF : List α) (cpRF spRF : α)
    (pMout : List α) : Option (List α) :=
  forLoop Nt (timeBody Nz pCOS pSIN pCTRF pSTRF cpRF spRF) pMout

/-- The entry point `mexFunction` (lines 5-74): `right` holds the input
matrices, the result is the matrix stored in `left[0]`. -/
def mexFunction (right : List (MxArray α)) : Option (MxArray α) := do
  let r0 ← right[0]?
  let r1 ← right[1]?
  let r2 ← right[2]?
  let r3 ← right[3]?
  let r4 ← right[4]?
  let r5 ← right[5]?
  let r6 ← right[6]?
  let pMin := mxGetPr r0
  let pCOS := mxGetPr r1
  let pSIN := mxGetPr r2
  let pCTRF := mxGetPr r3
  let pSTRF := mxGetPr r4
  let cpRF ← rd (mxGetPr r5) 0
  let spRF ← rd (mxGetPr r6) 0
  let Nz := mxGetN r0
  let Nt := mxGetN r3
  let Mout : MxArray α := mxCreateDoubleMatrix 3 Nz
  let pMout ← initLoop Nz pMin (mxGetPr Mout)
  let pMout ← timeLoop Nz Nt pCOS pSIN pCTRF pSTRF cpRF spRF pMout
  some { Mout with pr := pMout }

end Embedding

section Vectors

variable {α : Type}

/-- Vector `i` of a flat buffer: the elements `3*i`, `3*i+1`, `3*i+2`, when
all three are inside the buffer. -/
def getVec (p : List α) (i : Nat) : Option (α × α × α) := do
  let x ← p[3 * i]?
  let y ← p[3 * i + 1]?
  let z ← p[3 * i + 2]?
  pure (x, y, z)

variable [CommRing α]

/-- The assignments of the precession loop body on one vector (lines 46-49). -/
def precessVec (c s : α) (v : α × α × α) : α × α × α :=
  (c * v.1 + s * v.2.1, -s * v.1 + c * v.2.1, v.2.2)

/-- The assignments of the RF tip loop body on one vector (lines 56-68). -/
def rfTipVec (cpRF spRF ct st : α) (v : α × α × α) : α × α × α :=
  (v.1 * (cpRF * cpRF + ct * spRF * spRF) + v.2.1 * (cpRF * spRF - ct * cpRF * spRF) -
      v.2.2 * (spRF * st),
   v.2.1 * (ct * cpRF * cpRF + spRF * spRF) + v.1 * (cpRF * spRF - cpRF * spRF * ct) +
      v.2.2 * (cpRF * st),
   v.2.2 * ct - v.2.1 * cpRF * st + v.1 * spRF * st)

/-- The effect of the first `Nt` passes of the time loop on one vector whose
precession pair is `(c, s)`. -/
def simVec (c s cpRF spRF : α) (pCTRF pSTRF : List α) : Nat → α × α × α → α × α × α
  | 0, v => v
  | t + 1, v =>
    rfTipVec cpRF spRF (pCTRF.getD t 0) (pSTRF.getD t 0)
      (precessVec c s (simVec c s cpRF spRF pCTRF pSTRF t v))

/-- Cross product of two vectors. -/
def cross (u v : α × α × α) : α × α × α :=
  (u.2.1 * v.2.2 - u.2.2 * v.2.1, u.2.2 * v.1 - u.1 * v.2.2, u.1 * v.2.1 - u.2.1 * v.1)

/-- Dot product of two vectors. -/
def dot (u v : α × α × α) : α :=
  u.1 * v.1 + u.2.1 * v.2.1 + u.2.2 * v.2.2

/-- Specification side, not taken from the source: the Rodrigues formula
`v*cos + (u × v)*sin + u*(u . v)*(1 - cos)` for the rotation of `v` about the
unit axis `u`, where `ca` and `sa` are the cosine and sine of the angle. -/
def specRodrigues (ca sa : α) (u v : α × α × α) : α × α × α :=
  (v.1 * ca + (cross u v).1 * sa + u.1 * dot u v * (1 - ca),
   v.2.1 * ca + (cross u v).2.1 * sa + u.2.1 * dot u v * (1 - ca),
   v.2.2 * ca + (cross u v).2.2 * sa + u.2.2 * dot u v * (1 - ca))

/-- Specification side, not taken from the source: the phase-frame rotation
about z, `Z = [[cpRF, -spRF, 0], [spRF, cpRF, 0], [0, 0, 1]]`. -/
def specZ (cpRF spRF : α) : Matrix (Fin 3) (Fin 3) α :=
  !![cpRF, -spRF, 0; spRF, cpRF, 0; 0, 0, 1]

/-- Specification side, not taken from the source: the rotation about the x
axis by the flip angle, `X = [[1, 0, 0], [0, ca, sa], [0, -sa, ca]]`. -/
def specX (ca sa : α) : Matrix (Fin 3) (Fin 3) α :=
  !![1, 0, 0; 0, ca, sa; 0, -sa, ca]

/-- The combination `a*v + b*w` of two vectors. -/
def lin (a b : α) (v w : α × α × α) : α × α × α :=
  (a * v.1 + b * w.1, a * v.2.1 + b * w.2.1, a * v.2.2 + b * w.2.2)

end Vectors

section Lemmas

variable {α : Type}

theorem forLoop_zero {σ : Type} (body : Nat → σ → Option σ) (s : σ) :
    forLoop 0 body s = some s := rfl

theorem forLoop_succ {σ : Type} (n : Nat) (body : Nat → σ → Option σ) (s : σ) :
    forLoop (n + 1) body s = (forLoop n body s).bind (body n) := by
  simp [forLoop, List.range_succ, List.foldlM_append]

theorem getVec_eq_some {p : List α} {i : Nat} {v : α × α × α} :
    getVec p i = some v ↔
      p[3 * i]? = some v.1 ∧ p[3 * i + 1]? = some v.2.1 ∧ p[3 * i + 2]? = some v.2.2 := by
  obtain ⟨x, y, z⟩ := v
  simp only [getVec, Option.bind_eq_bind, Option.pure_def, Option.bind_eq_some, Option.some.injEq,
    Prod.mk.injEq]
  constructor
  · rintro ⟨a, ha, b, hb, c, hc, rfl, rfl, rfl⟩
    exact ⟨ha, hb, hc⟩
  · rintro ⟨ha, hb, hc⟩
    exact ⟨x, ha, y, hb, z, hc, rfl, rfl, rfl⟩

theorem getVec_congr {p q : List α} {i : Nat} (h : ∀ k, k / 3 = i → p[k]? = q[k]?) :
    getVec p i = getVec q i := by
  simp only [getVec]
  rw [h (3 * i) (by omega), h (3 * i + 1) (by omega), h (3 * i + 2) (by omega)]

theorem getVec_of_lt {p : List α} {i : Nat} (h : 3 * i + 2 < p.length) :
    ∃ v, getVec p i = some v := by
  refine ⟨(p[3 * i], p[3 * i + 1], p[3 * i + 2]), ?_⟩
  rw [getVec_eq_some]
  exact ⟨List.getElem?_eq_getElem _, List.getElem?_eq_getElem _, List.getElem?_eq_getElem _⟩

/-- Loop rule for a loop over positions whose body rewrites only vector `i`. -/
theorem forLoop_getVec (body : Nat → List α → Option (List α))
    {f : Nat → α × α × α → α × α × α} {L : Nat} (n : Nat)
    (hbody : ∀ i, i < n → ∀ b : List α, b.length = L →
      ∃ b1, body i b = some b1 ∧ b1.length = L ∧ (∀ k, k / 3 ≠ i → b1[k]? = b[k]?) ∧
        ∀ v, getVec b i = some v → getVec b1 i = some (f i v))
    (b : List α) (hb : b.length = L) :
    ∃ b1, forLoop n body b = some b1 ∧ b1.length = L ∧ (∀ k, n ≤ k / 3 → b1[k]? = b[k]?) ∧
      ∀ i, i < n → ∀ v, getVec b i = some v → getVec b1 i = some (f i v) := by
  induction n with
  | zero => exact ⟨b, rfl, hb, fun _ _ => rfl, fun i hi => absurd hi (Nat.not_lt_zero i)⟩
  | succ n ih =>
    obtain ⟨b0, h0, hl0, hk0, hv0⟩ := ih (fun i hi => hbody i (Nat.lt_succ_of_lt hi))
    obtain ⟨b1, h1, hl1, hk1, hv1⟩ := hbody n (Nat.lt_succ_self n) b0 hl0
    refine ⟨b1, ?_, hl1, ?_, ?_⟩
    · rw [forLoop_succ, h0]
      exact h1
    · intro k hk
      rw [hk1 k (by omega), hk0 k (by omega)]
    · intro i hi v hv
      rcases Nat.lt_succ_iff_lt_or_eq.mp hi with hlt | rfl
      · rw [getVec_congr (q := b0) (fun k hk => hk1 k (by omega))]
        exact hv0 i hlt v hv
      · apply hv1
        rw [getVec_congr (q := b) (fun k hk => hk0 k (by omega))]
        exact hv

theorem initBody_spec {pMin b : List α} {i L : Nat} {w : α × α × α}
    (hw : getVec pMin i = some w) (hb : b.length = L) (hi : 3 * i + 2 < L) :
    ∃ b1, initBody pMin i b = some b1 ∧ b1.length = L ∧
      (∀ k, k / 3 ≠ i → b1[k]? = b[k]?) ∧ getVec b1 i = some w := by
  obtain ⟨w0, w1, w2⟩ := w
  obtain ⟨h0, h1, h2⟩ := getVec_eq_some.mp hw
  have l0 : 3 * i < b.length := by omega
  have l1 : 3 * i + 1 < b.length := by omega
  have l2 : 3 * i + 2 < b.length := by omega
  refine ⟨((b.set (3 * i) w0).set (3 * i + 1) w1).set (3 * i + 2) w2, ?_, ?_, ?_, ?_⟩
  · simp [initBody, rd, wr, h0, h1, h2, l0, l1, l2]
  · simp [hb]
  · intro k hk
    rw [List.getElem?_set_ne (by omega), List.getElem?_set_ne (by omega),
      List.getElem?_set_ne (by omega)]
  · rw [getVec_eq_some]
    simp [List.getElem?_set, l0, l1, l2]

end Lemmas

section BodyLemmas

variable {α : Type} [CommRing α]

theorem precessBody_spec {pCOS pSIN b : List α} {i L : Nat} {c s : α}
    (hc : pCOS[i]? = some c) (hs : pSIN[i]? = some s) (hb : b.length = L)
    (hi : 3 * i + 2 < L) :
    ∃ b1, precessBody pCOS pSIN i b = some b1 ∧ b1.length = L ∧
      (∀ k, k / 3 ≠ i → b1[k]? = b[k]?) ∧
      ∀ v, getVec b i = some v → getVec b1 i = some (precessVec c s v) := by
  obtain ⟨⟨x, y, z⟩, hv⟩ := getVec_of_lt (p := b) (i := i) (by omega)
  obtain ⟨h0, h1, h2⟩ := getVec_eq_some.mp hv
  have l0 : 3 * i < b.length := by omega
  have l1 : 3 * i + 1 < b.length := by omega
  refine ⟨(b.set (3 * i) (c * x + s * y)).set (3 * i + 1) (-s * x + c * y), ?_, ?_, ?_, ?_⟩
  · simp [precessBody, rd, wr, hc, hs, h0, h1, l0, l1]
  · simp [hb]
  · intro k hk
    rw [List.getElem?_set_ne (by omega), List.getElem?_set_ne (by omega)]
  · intro v hv1
    rw [hv] at hv1
    cases hv1
    rw [getVec_eq_some]
    simp [List.getElem?_set, l0, l1, h2, precessVec]

theorem rfTipBody_spec {pCTRF pSTRF b : List α} {cpRF spRF ct st : α} {t i L : Nat}
    (hc : pCTRF[t]? = some ct) (hs : pSTRF[t]? = some st) (hb : b.length = L)
    (hi : 3 * i + 2 < L) :
    ∃ b1, rfTipBody pCTRF pSTRF cpRF spRF t i b = some b1 ∧ b1.length = L ∧
      (∀ k, k / 3 ≠ i → b1[k]? = b[k]?) ∧
      ∀ v, getVec b i = some v → getVec b1 i = some (rfTipVec cpRF spRF ct st v) := by
  obtain ⟨⟨x, y, z⟩, hv⟩ := getVec_of_lt (p := b) (i := i) (by omega)
  obtain ⟨h0, h1, h2⟩ := getVec_eq_some.mp hv
  have l0 : 3 * i < b.length := by omega
  have l1 : 3 * i + 1 < b.length := by omega
  have l2 : 3 * i + 2 < b.length := by omega
  refine ⟨((b.set (3 * i) (rfTipVec cpRF spRF ct st (x, y, z)).1).set (3 * i + 1)
    (rfTipVec cpRF spRF ct st (x, y, z)).2.1).set (3 * i + 2)
    (rfTipVec cpRF spRF ct st (x, y, z)).2.2, ?_, ?_, ?_, ?_⟩
  · simp [rfTipBody, rd, wr, hc, hs, h0, h1, h2, l0, l1, l2, rfTipVec]
  · simp [hb]
  · intro k hk
    rw [List.getElem?_set_ne (by omega), List.getElem?_set_ne (by omega),
      List.getElem?_set_ne (by omega)]
  · intro v hv1
    rw [hv] at hv1
    cases hv1
    rw [getVec_eq_some]
    simp [List.getElem?_set, l0, l1, l2]

end BodyLemmas

section LoopLemmas

variable {α : Type}

theorem getD_of_lt [Zero α] {p : List α} {i : Nat} (h : i < p.length) :
    p[i]? = some (p.getD i 0) := by
  simp [List.getElem?_eq_getElem h]

/-- A buffer of `3*n` elements is determined by its `n` vectors. -/
theorem ext_getVec {p q : List α} {n : Nat} (hp : p.length = 3 * n) (hq : q.length = 3 * n)
    (h : ∀ i, i < n → getVec p i = getVec q i) : p = q := by
  apply List.ext_getElem?
  intro k
  by_cases hk : k < 3 * n
  · have hi : k / 3 < n := by omega
    obtain ⟨v, hv⟩ := getVec_of_lt (p := p) (i := k / 3) (by omega)
    have hv2 : getVec q (k / 3) = some v := (h _ hi) ▸ hv
    obtain ⟨a0, a1, a2⟩ := getVec_eq_some.mp hv
    obtain ⟨c0, c1, c2⟩ := getVec_eq_some.mp hv2
    have hr : k = 3 * (k / 3) ∨ k = 3 * (k / 3) + 1 ∨ k = 3 * (k / 3) + 2 := by omega
    rcases hr with hr | hr | hr
    · rw [hr, a0, c0]
    · rw [hr, a1, c1]
    · rw [hr, a2, c2]
  · rw [List.getElem?_eq_none (by omega), List.getElem?_eq_none (by omega)]

theorem eq_of_getVec_zero {out : List α} {v : α × α × α} (hl : out.length = 3 * 1)
    (h : getVec out 0 = some v) : out = [v.1, v.2.1, v.2.2] := by
  apply ext_getVec (q := [v.1, v.2.1, v.2.2]) hl rfl
  intro i hi
  obtain rfl : i = 0 := by omega
  rw [h]
  rfl

theorem initLoop_spec (pMin b : List α) (Nz L : Nat) (hm : 3 * Nz ≤ pMin.length)
    (hb : b.length = L) (hL : 3 * Nz ≤ L) :
    ∃ b1, initLoop Nz pMin b = some b1 ∧ b1.length = L ∧
      (∀ k, Nz ≤ k / 3 → b1[k]? = b[k]?) ∧ ∀ i, i < Nz → getVec b1 i = getVec pMin i := by
  obtain ⟨b1, h1, hl, hk, hv⟩ := forLoop_getVec (initBody pMin)
    (f := fun i v => (getVec pMin i).getD v) (L := L) Nz
    (by
      intro i hi c hc
      obtain ⟨w, hw⟩ := getVec_of_lt (p := pMin) (i := i) (by omega)
      obtain ⟨c1, e1, e2, e3, e4⟩ := initBody_spec hw hc (by omega)
      exact ⟨c1, e1, e2, e3, fun v _ => by simp [hw, e4]⟩) b hb
  refine ⟨b1, h1, hl, hk, ?_⟩
  intro i hi
  obtain ⟨v, hv0⟩ := getVec_of_lt (p := b) (i := i) (by omega)
  obtain ⟨w, hw⟩ := getVec_of_lt (p := pMin) (i := i) (by omega)
  rw [hv i hi v hv0, hw]
  rfl

variable [CommRing α]

theorem precessionLoop_spec (Nz : Nat) (pCOS pSIN b : List α) {L : Nat} (hC : Nz ≤ pCOS.length)
    (hS : Nz ≤ pSIN.length) (hb : b.length = L) (hL : 3 * Nz ≤ L) :
    ∃ b1, precessionLoop Nz pCOS pSIN b = some b1 ∧ b1.length = L ∧
      (∀ k, Nz ≤ k / 3 → b1[k]? = b[k]?) ∧
      ∀ i, i < Nz → ∀ v, getVec b i = some v →
        getVec b1 i = some (precessVec (pCOS.getD i 0) (pSIN.getD i 0) v) :=
  forLoop_getVec (precessBody pCOS pSIN)
    (f := fun i v => precessVec (pCOS.getD i 0) (pSIN.getD i 0) v) Nz
    (fun i hi c hc =>
      precessBody_spec (getD_of_lt (by omega)) (getD_of_lt (by omega)) hc (by omega)) b hb

theorem rfTipLoop_spec (cpRF spRF : α) (Nz : Nat) {pCTRF pSTRF b : List α} {ct st : α}
    {t L : Nat}
    (hc : pCTRF[t]? = some ct) (hs : pSTRF[t]? = some st) (hb : b.length = L)
    (hL : 3 * Nz ≤ L) :
    ∃ b1, rfTipLoop Nz pCTRF pSTRF cpRF spRF t b = some b1 ∧ b1.length = L ∧
      (∀ k, Nz ≤ k / 3 → b1[k]? = b[k]?) ∧
      ∀ i, i < Nz → ∀ v, getVec b i = some v →
        getVec b1 i = some (rfTipVec cpRF spRF ct st v) :=
  forLoop_getVec (rfTipBody pCTRF pSTRF cpRF spRF t)
    (f := fun _ v => rfTipVec cpRF spRF ct st v) Nz
    (fun i hi c hl => rfTipBody_spec hc hs hl (by omega)) b hb

theorem timeBody_spec (cpRF spRF : α) {pCOS pSIN pCTRF pSTRF b : List α} {ct st : α}
    {Nz t L : Nat}
    (hC : Nz ≤ pCOS.length) (hS : Nz ≤ pSIN.length)
    (hc : pCTRF[t]? = some ct) (hs : pSTRF[t]? = some st) (hb : b.length = L)
    (hL : 3 * Nz ≤ L) :
    ∃ b2, timeBody Nz pCOS pSIN pCTRF pSTRF cpRF spRF t b = some b2 ∧ b2.length = L ∧
      (∀ k, Nz ≤ k / 3 → b2[k]? = b[k]?) ∧
      ∀ i, i < Nz → ∀ v, getVec b i = some v →
        getVec b2 i = some (rfTipVec cpRF spRF ct st
          (precessVec (pCOS.getD i 0) (pSIN.getD i 0) v)) := by
  obtain ⟨b1, h1, hl1, hk1, hv1⟩ := precessionLoop_spec Nz pCOS pSIN b hC hS hb hL
  obtain ⟨b2, h2, hl2, hk2, hv2⟩ :=
    rfTipLoop_spec cpRF spRF Nz hc hs hl1 hL
  refine ⟨b2, ?_, hl2, fun k hk => by rw [hk2 k hk, hk1 k hk], ?_⟩
  · simp [timeBody, h1, h2]
  · intro i hi v hv
    exact hv2 i hi _ (hv1 i hi v hv)

theorem timeLoop_spec (cpRF spRF : α) {pCOS pSIN pCTRF pSTRF b : List α} {Nz L : Nat}
    (hC : Nz ≤ pCOS.length) (hS : Nz ≤ pSIN.length) (hb : b.length = L) (hL : 3 * Nz ≤ L)
    (Nt : Nat) (hc : Nt ≤ pCTRF.length) (hs : Nt ≤ pSTRF.length) :
    ∃ b1, timeLoop Nz Nt pCOS pSIN pCTRF pSTRF cpRF spRF b = some b1 ∧ b1.length = L ∧
      (∀ k, Nz ≤ k / 3 → b1[k]? = b[k]?) ∧
      ∀ i, i < Nz → ∀ v, getVec b i = some v →
        getVec b1 i = some (simVec (pCOS.getD i 0) (pSIN.getD i 0) cpRF spRF pCTRF pSTRF Nt v) := by
  induction Nt with
  | zero => exact ⟨b, rfl, hb, fun _ _ => rfl, fun _ _ _ hv => hv⟩
  | succ t ih =>
    obtain ⟨b1, h1, hl1, hk1, hv1⟩ := ih (by omega) (by omega)
    obtain ⟨b2, h2, hl2, hk2, hv2⟩ :=
      timeBody_spec cpRF spRF hC hS
        (getD_of_lt (p := pCTRF) (i := t) (by omega))
        (getD_of_lt (p := pSTRF) (i := t) (by omega)) hl1 hL
    refine ⟨b2, ?_, hl2, fun k hk => by rw [hk2 k hk, hk1 k hk], ?_⟩
    · unfold timeLoop at h1 ⊢
      rw [forLoop_succ, h1]
      exact h2
    · intro i hi v hv
      exact hv2 i hi _ (hv1 i hi v hv)

/-- The result of `mexFunction` on well-shaped arguments: a `3 × Nz` matrix
whose vector `i` is `simVec` applied to vector `i` of the initial field. -/
theorem mexFunction_spec (Min COS SIN CTRF STRF cp sp : MxArray α) {cpRF spRF : α}
    (hm : 3 * Min.N ≤ Min.pr.length) (hC : Min.N ≤ COS.pr.length) (hS : Min.N ≤ SIN.pr.length)
    (hc : CTRF.N ≤ CTRF.pr.length) (hs : CTRF.N ≤ STRF.pr.length)
    (hcp : cp.pr[0]? = some cpRF) (hsp : sp.pr[0]? = some spRF) :
    ∃ out, mexFunction [Min, COS, SIN, CTRF, STRF, cp, sp] = some ⟨3, Min.N, out⟩ ∧
      out.length = 3 * Min.N ∧
      ∀ i, i < Min.N → ∀ v, getVec Min.pr i = some v →
        getVec out i = some (simVec (COS.pr.getD i 0) (SIN.pr.getD i 0) cpRF spRF
          CTRF.pr STRF.pr CTRF.N v) := by
  obtain ⟨b0, h0, hl0, -, hv0⟩ := initLoop_spec Min.pr (List.replicate (3 * Min.N) (0 : α))
    Min.N (3 * Min.N) hm (by simp) (le_refl _)
  obtain ⟨b1, h1, hl1, -, hv1⟩ := timeLoop_spec cpRF spRF hC hS hl0
    (le_refl _) CTRF.N hc hs
  refine ⟨b1, ?_, hl1, ?_⟩
  · simp [mexFunction, mxGetPr, mxGetN, mxCreateDoubleMatrix, rd, hcp, hsp, h0, h1]
  · intro i hi v hv
    exact hv1 i hi v (by rw [hv0 i hi]; exact hv)

/-- The same for the seven arguments given by their data and the sizes `Nz`
and `Nt`. -/
theorem mexFunction_rows (Nz Nt : Nat) (pMin pCOS pSIN pCTRF pSTRF : List α) (cpRF spRF : α)
    (hm : pMin.length = 3 * Nz) (hC : pCOS.length = Nz) (hS : pSIN.length = Nz)
    (hc : pCTRF.length = Nt) (hs : pSTRF.length = Nt) :
    ∃ out, mexFunction [⟨3, Nz, pMin⟩, ⟨1, Nz, pCOS⟩, ⟨1, Nz, pSIN⟩, ⟨1, Nt, pCTRF⟩,
        ⟨1, Nt, pSTRF⟩, ⟨1, 1, [cpRF]⟩, ⟨1, 1, [spRF]⟩] = some ⟨3, Nz, out⟩ ∧
      out.length = 3 * Nz ∧
      ∀ i, i < Nz → ∀ v, getVec pMin i = some v →
        getVec out i = some (simVec (pCOS.getD i 0) (pSIN.getD i 0) cpRF spRF
          pCTRF pSTRF Nt v) :=
  mexFunction_spec ⟨3, Nz, pMin⟩ ⟨1, Nz, pCOS⟩ ⟨1, Nz, pSIN⟩ ⟨1, Nt, pCTRF⟩ ⟨1, Nt, pSTRF⟩
    ⟨1, 1, [cpRF]⟩ ⟨1, 1, [spRF]⟩ (le_of_eq hm.symm) (le_of_eq hC.symm)
    (le_of_eq hS.symm) (le_of_eq hc.symm) (le_of_eq hs.symm) rfl rfl

/-- With a buffer of exactly `3*Nz` elements on both sides the initialisation
loop produces the input data. -/
theorem initLoop_copy {pMin : List α} (Nz : Nat) (hm : pMin.length = 3 * Nz) :
    initLoop Nz pMin (List.replicate (3 * Nz) (0 : α)) = some pMin := by
  obtain ⟨b1, h1, hl, -, hv⟩ := initLoop_spec pMin
    (List.replicate (3 * Nz) (0 : α)) Nz (3 * Nz) (by omega) (by simp)
    (le_refl _)
  rw [h1, ext_getVec hl hm hv]

/-- With zero flip angle and a unit phase pair, `n` passes of the time loop
rotate the transverse part by `n` times the precession angle. -/
theorem simVec_zero_flip (θ cpRF spRF : ℝ) (pCTRF pSTRF : List ℝ)
    (hphase : cpRF ^ 2 + spRF ^ 2 = 1) (x y z : ℝ) (n : Nat)
    (hct : ∀ t, t < n → pCTRF[t]? = some 1) (hst : ∀ t, t < n → pSTRF[t]? = some 0) :
    simVec (Real.cos θ) (Real.sin θ) cpRF spRF pCTRF pSTRF n (x, y, z) =
      (x * Real.cos (n * θ) + y * Real.sin (n * θ),
       -x * Real.sin (n * θ) + y * Real.cos (n * θ), z) := by
  induction n with
  | zero => simp [simVec]
  | succ n ih =>
    have hc : Real.cos ((n + 1 : ℕ) * θ) =
        Real.cos (n * θ) * Real.cos θ - Real.sin (n * θ) * Real.sin θ := by
      push_cast
      rw [add_mul, one_mul, Real.cos_add]
    have hs : Real.sin ((n + 1 : ℕ) * θ) =
        Real.sin (n * θ) * Real.cos θ + Real.cos (n * θ) * Real.sin θ := by
      push_cast
      rw [add_mul, one_mul, Real.sin_add]
    rw [simVec, ih (fun t ht => hct t (by omega)) (fun t ht => hst t (by omega)), hc, hs]
    simp only [List.getD_eq_getElem?_getD, hct n (Nat.lt_succ_self n),
      hst n (Nat.lt_succ_self n), Option.getD_some, precessVec, rfTipVec, Prod.mk.injEq]
    refine ⟨?_, ?_, ?_⟩
    · linear_combination
        (Real.cos θ * (x * Real.cos (n * θ) + y * Real.sin (n * θ)) +
          Real.sin θ * (-x * Real.sin (n * θ) + y * Real.cos (n * θ))) * hphase
    · linear_combination
        (-Real.sin θ * (x * Real.cos (n * θ) + y * Real.sin (n * θ)) +
          Real.cos θ * (-x * Real.sin (n * θ) + y * Real.cos (n * θ))) * hphase
    · ring

/-- A loop of `m + n` passes is the loop of the first `m` passes followed by
the loop of the remaining `n` passes. -/
theorem forLoop_add {σ : Type} (m n : Nat) (body : Nat → σ → Option σ) (s : σ) :
    forLoop (m + n) body s =
      (forLoop m body s).bind (forLoop n (fun i => body (m + i))) := by
  induction n with
  | zero =>
    cases h : forLoop m body s <;> simp [forLoop_zero, h]
  | succ n ih =>
    rw [← Nat.add_assoc, forLoop_succ, ih]
    cases h : forLoop m body s with
    | none => rfl
    | some a => simp [forLoop_succ]

theorem forLoop_congr {σ : Type} (n : Nat) (body1 body2 : Nat → σ → Option σ)
    (h : ∀ i, i < n → ∀ s, body1 i s = body2 i s) (s : σ) :
    forLoop n body1 s = forLoop n body2 s := by
  induction n with
  | zero => rfl
  | succ n ih =>
    rw [forLoop_succ, forLoop_succ, ih (fun i hi => h i (Nat.lt_succ_of_lt hi))]
    cases forLoop n body2 s with
    | none => rfl
    | some a => exact h n (Nat.lt_succ_self n) a

/-- The pass of the time loop depends on the RF tables only through the
elements at its time index. -/
theorem timeBody_congr (Nz : Nat) (pCOS pSIN pCTRF pSTRF qCTRF qSTRF : List α)
    (cpRF spRF : α) (t u : Nat) (hc : pCTRF[t]? = qCTRF[u]?) (hs : pSTRF[t]? = qSTRF[u]?)
    (b : List α) :
    timeBody Nz pCOS pSIN pCTRF pSTRF cpRF spRF t b =
      timeBody Nz pCOS pSIN qCTRF qSTRF cpRF spRF u b := by
  have h : rfTipBody pCTRF pSTRF cpRF spRF t = rfTipBody qCTRF qSTRF cpRF spRF u := by
    funext i c
    simp only [rfTipBody, rd, hc, hs]
  simp only [timeBody, rfTipLoop, h]

/-- The first `n1` passes of the time loop read only the first `n1` elements
of the RF tables. -/
theorem timeLoop_append_left (Nz n1 : Nat) (pCOS pSIN c1 s1 c2 s2 : List α) (cpRF spRF : α)
    (h1 : c1.length = n1) (h2 : s1.length = n1) (b : List α) :
    timeLoop Nz n1 pCOS pSIN (c1 ++ c2) (s1 ++ s2) cpRF spRF b =
      timeLoop Nz n1 pCOS pSIN c1 s1 cpRF spRF b := by
  unfold timeLoop
  apply forLoop_congr
  intro t ht c
  apply timeBody_congr
  · exact List.getElem?_append_left (by omega)
  · exact List.getElem?_append_left (by omega)

/-- On an initial field of exactly `3*Nz` elements `mexFunction` is the time
loop started from the input data. -/
theorem mexFunction_eq_timeLoop (Nz : Nat) (pMin : List α) (COS SIN CTRF STRF : MxArray α)
    (cpRF spRF : α) (hm : pMin.length = 3 * Nz) :
    mexFunction [⟨3, Nz, pMin⟩, COS, SIN, CTRF, STRF, ⟨1, 1, [cpRF]⟩, ⟨1, 1, [spRF]⟩] =
      (timeLoop Nz CTRF.N COS.pr SIN.pr CTRF.pr STRF.pr cpRF spRF pMin).bind
        (fun o => some ⟨3, Nz, o⟩) := by
  simp [mexFunction, mxGetPr, mxGetN, mxCreateDoubleMatrix, rd, initLoop_copy Nz hm]

/-- The time loop over a concatenated pulse is the time loop over the prefix
followed by the time loop over the suffix. -/
theorem timeLoop_append (Nz n1 n2 : Nat) (pCOS pSIN c1 s1 c2 s2 : List α) (cpRF spRF : α)
    (h1 : c1.length = n1) (h2 : s1.length = n1) (b : List α) :
    timeLoop Nz (n1 + n2) pCOS pSIN (c1 ++ c2) (s1 ++ s2) cpRF spRF b =
      (timeLoop Nz n1 pCOS pSIN c1 s1 cpRF spRF b).bind
        (timeLoop Nz n2 pCOS pSIN c2 s2 cpRF spRF) := by
  unfold timeLoop
  rw [forLoop_add]
  have e1 : forLoop n1 (timeBody Nz pCOS pSIN (c1 ++ c2) (s1 ++ s2) cpRF spRF) b =
      forLoop n1 (timeBody Nz pCOS pSIN c1 s1 cpRF spRF) b := by
    apply forLoop_congr
    intro t ht c
    apply timeBody_congr
    · exact List.getElem?_append_left (by omega)
    · exact List.getElem?_append_left (by omega)
  have e2 : (fun t => timeBody Nz pCOS pSIN (c1 ++ c2) (s1 ++ s2) cpRF spRF (n1 + t)) =
      timeBody Nz pCOS pSIN c2 s2 cpRF spRF := by
    funext t c
    apply timeBody_congr
    · rw [List.getElem?_append_right (by omega)]
      congr 1
      omega
    · rw [List.getElem?_append_right (by omega)]
      congr 1
      omega
  rw [e1, e2]

/-- The passes of the time loop act linearly on a vector. -/
theorem simVec_lin (c s cpRF spRF : α) (pCTRF pSTRF : List α) (a b : α) (n : Nat)
    (v w : α × α × α) :
    simVec c s cpRF spRF pCTRF pSTRF n (lin a b v w) =
      lin a b (simVec c s cpRF spRF pCTRF pSTRF n v) (simVec c s cpRF spRF pCTRF pSTRF n w) := by
  induction n with
  | zero => rfl
  | succ n ih =>
    simp only [simVec]
    rw [ih]
    generalize simVec c s cpRF spRF pCTRF pSTRF n v = v1
    generalize simVec c s cpRF spRF pCTRF pSTRF n w = w1
    simp only [lin, rfTipVec, precessVec, Prod.mk.injEq]
    refine ⟨?_, ?_, ?_⟩ <;> ring

theorem simVec_zero (c s cpRF spRF : α) (pCTRF pSTRF : List α) (n : Nat) :
    simVec c s cpRF spRF pCTRF pSTRF n (0, 0, 0) = (0, 0, 0) := by
  induction n with
  | zero => rfl
  | succ n ih =>
    rw [simVec, ih]
    simp [rfTipVec, precessVec]

theorem getVec_zipWith (a b : α) {p q : List α} {i : Nat} {v w : α × α × α}
    (hv : getVec p i = some v) (hw : getVec q i = some w) :
    getVec (List.zipWith (fun m n => a * m + b * n) p q) i = some (lin a b v w) := by
  obtain ⟨v0, v1, v2⟩ := getVec_eq_some.mp hv
  obtain ⟨w0, w1, w2⟩ := getVec_eq_some.mp hw
  rw [getVec_eq_some]
  simp [List.getElem?_zipWith, v0, v1, v2, w0, w1, w2, lin]

theorem getVec_replicate_zero {Nz i : Nat} (hi : i < Nz) :
    getVec (List.replicate (3 * Nz) (0 : α)) i = some (0, 0, 0) := by
  rw [getVec_eq_some]
  exact ⟨List.getElem?_replicate_of_lt (by omega), List.getElem?_replicate_of_lt (by omega),
    List.getElem?_replicate_of_lt (by omega)⟩

/-- Under the unit-circle conditions on the tables, the passes of the time
loop keep the squared length of a vector. -/
theorem simVec_norm (c s cpRF spRF : ℝ) (pCTRF pSTRF : List ℝ) (hcs : c ^ 2 + s ^ 2 = 1)
    (hphase : cpRF ^ 2 + spRF ^ 2 = 1) (n : Nat)
    (halpha : ∀ t, t < n → (pCTRF.getD t 0) ^ 2 + (pSTRF.getD t 0) ^ 2 = 1)
    (v : ℝ × ℝ × ℝ) :
    (simVec c s cpRF spRF pCTRF pSTRF n v).1 ^ 2 +
        (simVec c s cpRF spRF pCTRF pSTRF n v).2.1 ^ 2 +
        (simVec c s cpRF spRF pCTRF pSTRF n v).2.2 ^ 2 =
      v.1 ^ 2 + v.2.1 ^ 2 + v.2.2 ^ 2 := by
  induction n with
  | zero => rfl
  | succ n ih =>
    have h := ih (fun t ht => halpha t (by omega))
    have ha := halpha n (Nat.lt_succ_self n)
    rw [← h]
    simp only [simVec, rfTipVec, precessVec]
    generalize simVec c s cpRF spRF pCTRF pSTRF n v = w
    generalize pCTRF.getD n 0 = ct at ha ⊢
    generalize pSTRF.getD n 0 = st at ha ⊢
    obtain ⟨x, y, z⟩ := w
    simp only
    linear_combination
      ((cpRF * (c * x + s * y) + spRF * (-s * x + c * y)) ^ 2
        + (ct * (-spRF * (c * x + s * y) + cpRF * (-s * x + c * y)) + st * z) ^ 2
        + (c * x + s * y) ^ 2 + (-s * x + c * y) ^ 2) * hphase
      + ((-spRF * (c * x + s * y) + cpRF * (-s * x + c * y)) ^ 2 + z ^ 2) * ha
      + (x ^ 2 + y ^ 2) * hcs

end LoopLemmas

section Claims

open Real

/-- C1 (counterexample): with `cosTheta = [0]`, `sinTheta = [1]` and the
vector `(0, 1, 0)` the precession loop returns `(1, 0, 0)`, not the value
`(0*0 - 1*1, -1*0 + 0*1, 0) = (-1, 0, 0)` of the formula with the minus sign. -/
theorem C1_precession_minus_sign_counterexample :
    precessionLoop 1 [(0 : ℝ)] [1] [0, 1, 0] = some [1, 0, 0] ∧
    precessionLoop 1 [(0 : ℝ)] [1] [0, 1, 0] ≠ some [0 * 0 - 1 * 1, -1 * 0 + 0 * 1, 0] := by
  have h : precessionLoop 1 [(0 : ℝ)] [1] [0, 1, 0] = some [1, 0, 0] := by
    simp [precessionLoop, forLoop, precessBody, rd, wr, List.range_succ]
  refine ⟨h, ?_⟩
  rw [h]
  norm_num

/-- C1 (amended): for every position `i` and current vector `(Mx, My, Mz)` the
precession loop produces `Mx' = cosTheta[i]*Mx + sinTheta[i]*My`,
`My' = -sinTheta[i]*Mx + cosTheta[i]*My`, `Mz' = Mz`, both right-hand sides
using the values of `Mx` and `My` from before the sub-step. -/
theorem C1_precession_formula (Nz : Nat) (pCOS pSIN b : List ℝ) (i : Nat) (c s Mx My Mz : ℝ)
    (hb : b.length = 3 * Nz) (hC : pCOS.length = Nz) (hS : pSIN.length = Nz) (hi : i < Nz)
    (hc : pCOS[i]? = some c) (hs : pSIN[i]? = some s) (hv : getVec b i = some (Mx, My, Mz)) :
    ∃ b1, precessionLoop Nz pCOS pSIN b = some b1 ∧
      getVec b1 i = some (c * Mx + s * My, -s * Mx + c * My, Mz) := by
  obtain ⟨b1, h1, -, -, hv1⟩ := precessionLoop_spec Nz pCOS pSIN b (by omega) (by omega)
    hb (le_refl _)
  refine ⟨b1, h1, ?_⟩
  rw [hv1 i hi _ hv]
  simp [precessVec, hc, hs]

/-- C1 witness: one position, `cosTheta = [0]`, `sinTheta = [1]`, vector `(0, 1, 0)`. -/
theorem C1_precession_formula_witness :
    (([0, 1, 0] : List ℝ).length = 3 * 1 ∧ ([0] : List ℝ).length = 1 ∧
      ([1] : List ℝ).length = 1 ∧ 0 < 1 ∧ ([0] : List ℝ)[0]? = some 0 ∧
      ([1] : List ℝ)[0]? = some 1 ∧ getVec ([0, 1, 0] : List ℝ) 0 = some (0, 1, 0)) ∧
    ∃ b1, precessionLoop 1 [(0 : ℝ)] [1] [0, 1, 0] = some b1 ∧
      getVec b1 0 = some ((0 : ℝ) * 0 + 1 * 1, -1 * 0 + 0 * 1, 0) :=
  ⟨⟨rfl, rfl, rfl, by decide, rfl, rfl, rfl⟩,
    C1_precession_formula 1 [0] [1] [0, 1, 0] 0 0 1 0 1 0 rfl rfl rfl (by decide) rfl rfl rfl⟩

/-- C2: for every time step `t`, position `i` and current vector
`(Mx, My, Mz)` the RF tip loop produces the closed-form values of the three
components, all evaluated on the vector from before the sub-step. -/
theorem C2_rf_tip_formula (Nz : Nat) (pCTRF pSTRF b : List ℝ) (cpRF spRF : ℝ) (t i : Nat)
    (ct st Mx My Mz : ℝ) (hb : b.length = 3 * Nz) (hi : i < Nz)
    (hc : pCTRF[t]? = some ct) (hs : pSTRF[t]? = some st)
    (hv : getVec b i = some (Mx, My, Mz)) :
    ∃ b1, rfTipLoop Nz pCTRF pSTRF cpRF spRF t b = some b1 ∧
      getVec b1 i = some
        (Mx * (cpRF ^ 2 + ct * spRF ^ 2) + My * (cpRF * spRF - ct * cpRF * spRF)
            - Mz * (spRF * st),
         My * (ct * cpRF ^ 2 + spRF ^ 2) + Mx * (cpRF * spRF - cpRF * spRF * ct)
            + Mz * (cpRF * st),
         Mz * ct - My * cpRF * st + Mx * spRF * st) := by
  obtain ⟨b1, h1, -, -, hv1⟩ := rfTipLoop_spec cpRF spRF Nz hc hs hb (le_refl _)
  refine ⟨b1, h1, ?_⟩
  rw [hv1 i hi _ hv]
  simp only [rfTipVec, Option.some.injEq, Prod.mk.injEq]
  exact ⟨by ring, by ring, trivial⟩

/-- C2 witness: one position, a 90 degree flip about the x axis applied to `(2, 3, 5)`. -/
theorem C2_rf_tip_formula_witness :
    (([2, 3, 5] : List ℝ).length = 3 * 1 ∧ 0 < 1 ∧ ([0] : List ℝ)[0]? = some 0 ∧
      ([1] : List ℝ)[0]? = some 1 ∧ getVec ([2, 3, 5] : List ℝ) 0 = some (2, 3, 5)) ∧
    ∃ b1, rfTipLoop 1 [(0 : ℝ)] [1] 1 0 0 [2, 3, 5] = some b1 ∧
      getVec b1 0 = some
        ((2 : ℝ) * (1 ^ 2 + 0 * 0 ^ 2) + 3 * (1 * 0 - 0 * 1 * 0) - 5 * (0 * 1),
         3 * (0 * 1 ^ 2 + 0 ^ 2) + 2 * (1 * 0 - 1 * 0 * 0) + 5 * (1 * 1),
         5 * 0 - 3 * 1 * 1 + 2 * 0 * 1) :=
  ⟨⟨rfl, by decide, rfl, rfl, rfl⟩,
    C2_rf_tip_formula 1 [0] [1] [2, 3, 5] 1 0 0 0 0 1 2 3 5 rfl (by decide) rfl rfl rfl⟩

/-- C3: with `Nt = 0` the output of `mexFunction` is the `3 × Nz` matrix
holding exactly the input data, for every `Nz`, every initial field and every
`cosTheta`, `sinTheta`, `sinAlpha`, `cpRF`, `spRF`. -/
theorem C3_identity_step (Nz : Nat) (pMin : List ℝ) (COS SIN CTRF STRF : MxArray ℝ)
    (cpRF spRF : ℝ) (hm : pMin.length = 3 * Nz) (hNt : CTRF.N = 0) :
    mexFunction [⟨3, Nz, pMin⟩, COS, SIN, CTRF, STRF, ⟨1, 1, [cpRF]⟩, ⟨1, 1, [spRF]⟩] =
      some ⟨3, Nz, pMin⟩ := by
  simp [mexFunction, mxGetPr, mxGetN, mxCreateDoubleMatrix, rd, hNt, initLoop_copy Nz hm, timeLoop,
    forLoop_zero]

/-- C3 witness: two positions and no time step. -/
theorem C3_identity_step_witness :
    (([1, 2, 3, 4, 5, 6] : List ℝ).length = 3 * 2 ∧ (⟨1, 0, []⟩ : MxArray ℝ).N = 0) ∧
    mexFunction [⟨3, 2, [(1 : ℝ), 2, 3, 4, 5, 6]⟩, ⟨1, 2, [7, 8]⟩, ⟨1, 2, [9, 10]⟩, ⟨1, 0, []⟩,
      ⟨1, 0, []⟩, ⟨1, 1, [11]⟩, ⟨1, 1, [12]⟩] = some ⟨3, 2, [1, 2, 3, 4, 5, 6]⟩ :=
  ⟨⟨rfl, rfl⟩,
    C3_identity_step 2 [1, 2, 3, 4, 5, 6] ⟨1, 2, [7, 8]⟩ ⟨1, 2, [9, 10]⟩ ⟨1, 0, []⟩ ⟨1, 0, []⟩
      11 12 rfl rfl⟩

/-- C4: the whole simulation with `Nz = 1`, `Nt = 1`, initial field `(0,0,1)`,
`cosTheta = [1]`, `sinTheta = [0]`, `cosAlpha = [0]`, `sinAlpha = [1]`,
`cpRF = 1`, `spRF = 0` returns the field `(0, 1, 0)`. -/
theorem C4_concrete_scenario :
    mexFunction [⟨3, 1, [(0 : ℝ), 0, 1]⟩, ⟨1, 1, [1]⟩, ⟨1, 1, [0]⟩, ⟨1, 1, [0]⟩, ⟨1, 1, [1]⟩,
      ⟨1, 1, [1]⟩, ⟨1, 1, [0]⟩] = some ⟨3, 1, [0, 1, 0]⟩ := by
  have h0 : initLoop 1 [(0 : ℝ), 0, 1] [0, 0, 0] = some [0, 0, 1] :=
    initLoop_copy 1 rfl
  have h1 : precessionLoop 1 [(1 : ℝ)] [0] [0, 0, 1] = some [0, 0, 1] := by
    simp [precessionLoop, forLoop, precessBody, rd, wr, List.range_succ]
  have h2 : rfTipLoop 1 [(0 : ℝ)] [1] 1 0 0 [0, 0, 1] = some [0, 1, 0] := by
    simp [rfTipLoop, forLoop, rfTipBody, rd, wr, List.range_succ]
  have h3 : timeLoop 1 1 [(1 : ℝ)] [0] [0] [1] 1 0 [0, 0, 1] = some [0, 1, 0] := by
    simp [timeLoop, forLoop, timeBody, List.range_succ, h1, h2]
  simp [mexFunction, mxGetPr, mxGetN, mxCreateDoubleMatrix, rd, h0, h3]

/-- C5: when `cosAlpha[t]^2 + sinAlpha[t]^2 = 1` and `cpRF^2 + spRF^2 = 1`, the
RF tip loop maps the vector at every position to a vector of the same
squared length. -/
theorem C5_rf_tip_preserves_norm (Nz : Nat) (pCTRF pSTRF b : List ℝ) (cpRF spRF : ℝ)
    (t i : Nat) (ct st Mx My Mz : ℝ) (hb : b.length = 3 * Nz) (hi : i < Nz)
    (hc : pCTRF[t]? = some ct) (hs : pSTRF[t]? = some st)
    (hv : getVec b i = some (Mx, My, Mz))
    (halpha : ct ^ 2 + st ^ 2 = 1) (hphase : cpRF ^ 2 + spRF ^ 2 = 1) :
    ∃ b1 Mx1 My1 Mz1, rfTipLoop Nz pCTRF pSTRF cpRF spRF t b = some b1 ∧
      getVec b1 i = some (Mx1, My1, Mz1) ∧
      Mx1 ^ 2 + My1 ^ 2 + Mz1 ^ 2 = Mx ^ 2 + My ^ 2 + Mz ^ 2 := by
  obtain ⟨b1, h1, -, -, hv1⟩ := rfTipLoop_spec cpRF spRF Nz hc hs hb (le_refl _)
  refine ⟨b1, _, _, _, h1, hv1 i hi _ hv, ?_⟩
  simp only [rfTipVec]
  linear_combination
    ((cpRF * Mx + spRF * My) ^ 2 + (ct * (-spRF * Mx + cpRF * My) + st * Mz) ^ 2
      + Mx ^ 2 + My ^ 2) * hphase
    + ((-spRF * Mx + cpRF * My) ^ 2 + Mz ^ 2) * halpha

/-- C5 witness: a 90 degree flip about the y axis applied to `(2, 3, 5)`. -/
theorem C5_rf_tip_preserves_norm_witness :
    (([2, 3, 5] : List ℝ).length = 3 * 1 ∧ 0 < 1 ∧ ([0] : List ℝ)[0]? = some 0 ∧
      ([1] : List ℝ)[0]? = some 1 ∧ getVec ([2, 3, 5] : List ℝ) 0 = some (2, 3, 5) ∧
      (0 : ℝ) ^ 2 + 1 ^ 2 = 1 ∧ (0 : ℝ) ^ 2 + 1 ^ 2 = 1) ∧
    ∃ b1 Mx1 My1 Mz1, rfTipLoop 1 [(0 : ℝ)] [1] 0 1 0 [2, 3, 5] = some b1 ∧
      getVec b1 0 = some (Mx1, My1, Mz1) ∧
      Mx1 ^ 2 + My1 ^ 2 + Mz1 ^ 2 = (2 : ℝ) ^ 2 + 3 ^ 2 + 5 ^ 2 :=
  ⟨⟨rfl, by decide, rfl, rfl, rfl, by norm_num, by norm_num⟩,
    C5_rf_tip_preserves_norm 1 [0] [1] [2, 3, 5] 0 1 0 0 0 1 2 3 5 rfl (by decide) rfl rfl rfl
      (by norm_num) (by norm_num)⟩

/-- C6: with zero flip angle at every time step, a unit phase pair and
`cosTheta[i] = cos θ`, `sinTheta[i] = sin θ`, the output at position `i` keeps
the initial `Mz` and has the initial `(Mx, My)` rotated clockwise by the total
angle `Nt * θ`. -/
theorem C6_pure_precession (Nz Nt : Nat) (pMin pCOS pSIN pCTRF pSTRF : List ℝ)
    (cpRF spRF : ℝ) (i : Nat) (θ Mx My Mz : ℝ)
    (hm : pMin.length = 3 * Nz) (hC : pCOS.length = Nz) (hS : pSIN.length = Nz)
    (hct : pCTRF.length = Nt) (hst : pSTRF.length = Nt)
    (hone : ∀ t, t < Nt → pCTRF[t]? = some 1) (hzero : ∀ t, t < Nt → pSTRF[t]? = some 0)
    (hphase : cpRF ^ 2 + spRF ^ 2 = 1) (hi : i < Nz)
    (hc : pCOS[i]? = some (cos θ)) (hs : pSIN[i]? = some (sin θ))
    (hv : getVec pMin i = some (Mx, My, Mz)) :
    ∃ out, mexFunction [⟨3, Nz, pMin⟩, ⟨1, Nz, pCOS⟩, ⟨1, Nz, pSIN⟩, ⟨1, Nt, pCTRF⟩,
        ⟨1, Nt, pSTRF⟩, ⟨1, 1, [cpRF]⟩, ⟨1, 1, [spRF]⟩] = some ⟨3, Nz, out⟩ ∧
      getVec out i = some
        (Mx * cos (Nt * θ) + My * sin (Nt * θ), -Mx * sin (Nt * θ) + My * cos (Nt * θ), Mz) := by
  obtain ⟨out, h1, -, hv1⟩ :=
    mexFunction_rows Nz Nt pMin pCOS pSIN pCTRF pSTRF cpRF spRF hm hC hS hct hst
  refine ⟨out, h1, ?_⟩
  rw [hv1 i hi _ hv]
  simp only [List.getD_eq_getElem?_getD, hc, hs, Option.getD_some]
  rw [simVec_zero_flip θ cpRF spRF pCTRF pSTRF hphase Mx My Mz Nt hone hzero]

/-- C6 witness: one position with precession angle `0`, two time steps of
zero flip angle, phase pair `(1, 0)`, initial vector `(2, 3, 5)`. -/
theorem C6_pure_precession_witness :
    (([2, 3, 5] : List ℝ).length = 3 * 1 ∧ ([cos 0] : List ℝ).length = 1 ∧
      ([sin 0] : List ℝ).length = 1 ∧ ([1, 1] : List ℝ).length = 2 ∧
      ([0, 0] : List ℝ).length = 2 ∧ (∀ t, t < 2 → ([1, 1] : List ℝ)[t]? = some 1) ∧
      (∀ t, t < 2 → ([0, 0] : List ℝ)[t]? = some 0) ∧ (1 : ℝ) ^ 2 + 0 ^ 2 = 1 ∧ 0 < 1 ∧
      ([cos 0] : List ℝ)[0]? = some (cos 0) ∧ ([sin 0] : List ℝ)[0]? = some (sin 0) ∧
      getVec ([2, 3, 5] : List ℝ) 0 = some (2, 3, 5)) ∧
    ∃ out, mexFunction [⟨3, 1, [2, 3, 5]⟩, ⟨1, 1, [cos 0]⟩, ⟨1, 1, [sin 0]⟩, ⟨1, 2, [1, 1]⟩,
        ⟨1, 2, [0, 0]⟩, ⟨1, 1, [1]⟩, ⟨1, 1, [0]⟩] = some ⟨3, 1, out⟩ ∧
      getVec out 0 = some
        ((2 : ℝ) * cos ((2 : ℕ) * 0) + 3 * sin ((2 : ℕ) * 0),
          -2 * sin ((2 : ℕ) * 0) + 3 * cos ((2 : ℕ) * 0), 5) :=
  have hone : ∀ t, t < 2 → ([1, 1] : List ℝ)[t]? = some 1 := by
    intro t ht
    interval_cases t <;> rfl
  have hzero : ∀ t, t < 2 → ([0, 0] : List ℝ)[t]? = some 0 := by
    intro t ht
    interval_cases t <;> rfl
  ⟨⟨rfl, rfl, rfl, rfl, rfl, hone, hzero, by norm_num, by decide, rfl, rfl, rfl⟩,
    C6_pure_precession 1 2 [2, 3, 5] [cos 0] [sin 0] [1, 1] [0, 0] 1 0 0 0 2 3 5 rfl rfl rfl
      rfl rfl hone hzero (by norm_num) (by decide) rfl rfl rfl⟩

/-- C7: the vector at position `i` of the output of a run over `Nz` positions
is the single vector returned by the run with `Nz = 1` on vector `i` of the
initial field, `[cosTheta[i]]`, `[sinTheta[i]]` and the same `cosAlpha`,
`sinAlpha`, `cpRF`, `spRF`. -/
theorem C7_position_independence (Nz Nt : Nat) (pMin pCOS pSIN pCTRF pSTRF : List ℝ)
    (cpRF spRF : ℝ) (i : Nat) (c s Mx My Mz : ℝ)
    (hm : pMin.length = 3 * Nz) (hC : pCOS.length = Nz) (hS : pSIN.length = Nz)
    (hct : pCTRF.length = Nt) (hst : pSTRF.length = Nt) (hi : i < Nz)
    (hc : pCOS[i]? = some c) (hs : pSIN[i]? = some s)
    (hv : getVec pMin i = some (Mx, My, Mz)) :
    ∃ out x y z, mexFunction [⟨3, Nz, pMin⟩, ⟨1, Nz, pCOS⟩, ⟨1, Nz, pSIN⟩, ⟨1, Nt, pCTRF⟩,
        ⟨1, Nt, pSTRF⟩, ⟨1, 1, [cpRF]⟩, ⟨1, 1, [spRF]⟩] = some ⟨3, Nz, out⟩ ∧
      getVec out i = some (x, y, z) ∧
      mexFunction [⟨3, 1, [Mx, My, Mz]⟩, ⟨1, 1, [c]⟩, ⟨1, 1, [s]⟩, ⟨1, Nt, pCTRF⟩,
        ⟨1, Nt, pSTRF⟩, ⟨1, 1, [cpRF]⟩, ⟨1, 1, [spRF]⟩] = some ⟨3, 1, [x, y, z]⟩ := by
  obtain ⟨out, h1, -, hv1⟩ :=
    mexFunction_rows Nz Nt pMin pCOS pSIN pCTRF pSTRF cpRF spRF hm hC hS hct hst
  obtain ⟨out1, h2, hl2, hv2⟩ :=
    mexFunction_rows 1 Nt [Mx, My, Mz] [c] [s] pCTRF pSTRF cpRF spRF rfl rfl rfl hct hst
  have e1 := hv1 i hi _ hv
  have e2 := hv2 0 (by decide) (Mx, My, Mz) rfl
  simp only [List.getD_eq_getElem?_getD, hc, hs, Option.getD_some] at e1
  have e3 : ([c] : List ℝ).getD 0 0 = c := rfl
  have e4 : ([s] : List ℝ).getD 0 0 = s := rfl
  rw [e3, e4] at e2
  refine ⟨out, _, _, _, h1, e1, ?_⟩
  rw [h2, eq_of_getVec_zero hl2 e2]

/-- C7 witness: two positions and one time step, position `1`. -/
theorem C7_position_independence_witness :
    (([1, 2, 3, 4, 5, 6] : List ℝ).length = 3 * 2 ∧ ([0, 1] : List ℝ).length = 2 ∧
      ([1, 0] : List ℝ).length = 2 ∧ ([0] : List ℝ).length = 1 ∧ ([1] : List ℝ).length = 1 ∧
      1 < 2 ∧ ([0, 1] : List ℝ)[1]? = some 1 ∧ ([1, 0] : List ℝ)[1]? = some 0 ∧
      getVec ([1, 2, 3, 4, 5, 6] : List ℝ) 1 = some (4, 5, 6)) ∧
    ∃ out x y z, mexFunction [⟨3, 2, [(1 : ℝ), 2, 3, 4, 5, 6]⟩, ⟨1, 2, [0, 1]⟩, ⟨1, 2, [1, 0]⟩,
        ⟨1, 1, [0]⟩, ⟨1, 1, [1]⟩, ⟨1, 1, [1]⟩, ⟨1, 1, [0]⟩] = some ⟨3, 2, out⟩ ∧
      getVec out 1 = some (x, y, z) ∧
      mexFunction [⟨3, 1, [4, 5, 6]⟩, ⟨1, 1, [1]⟩, ⟨1, 1, [0]⟩, ⟨1, 1, [0]⟩,
        ⟨1, 1, [1]⟩, ⟨1, 1, [1]⟩, ⟨1, 1, [0]⟩] = some ⟨3, 1, [x, y, z]⟩ :=
  ⟨⟨rfl, rfl, rfl, rfl, rfl, by decide, rfl, rfl, rfl⟩,
    C7_position_independence 2 1 [1, 2, 3, 4, 5, 6] [0, 1] [1, 0] [0] [1] 1 0 1 1 0 4 5 6
      rfl rfl rfl rfl rfl (by decide) rfl rfl rfl⟩

/-- C8 (counterexample): for the angle `π/2`, the phase `0` and the vector
`(0, 0, 1)` the RF tip loop returns `(0, 1, 0)`, while the Rodrigues rotation
by `π/2` about `u = (1, 0, 0)` is `(0, -1, 0)`. -/
theorem C8_rodrigues_sign_counterexample :
    rfTipLoop 1 [cos (π / 2)] [sin (π / 2)] (cos 0) (sin 0) 0 [0, 0, 1] = some [0, 1, 0] ∧
    specRodrigues (cos (π / 2)) (sin (π / 2)) (cos 0, sin 0, 0) (0, 0, 1) = (0, -1, 0) ∧
    ((0 : ℝ), (1 : ℝ), (0 : ℝ)) ≠ (0, -1, 0) := by
  refine ⟨?_, ?_, ?_⟩
  · simp [rfTipLoop, forLoop, rfTipBody, rd, wr, List.range_succ]
  · simp [specRodrigues, cross, dot]
  · norm_num

/-- C8 (amended): with `cosAlpha[t] = cos α`, `sinAlpha[t] = sin α`,
`cpRF = cos φ`, `spRF = sin φ` and `u = (cpRF, spRF, 0)`, the RF tip loop
maps the vector `v` at every position to the Rodrigues rotation of `v` by
the angle `-α` about `u`, that is `v*cos α - (u × v)*sin α + u*(u . v)*(1 - cos α)`. -/
theorem C8_rf_tip_rodrigues_neg_angle (Nz : Nat) (pCTRF pSTRF b : List ℝ) (t i : Nat)
    (alpha phi x y z : ℝ) (hb : b.length = 3 * Nz) (hi : i < Nz)
    (hc : pCTRF[t]? = some (cos alpha)) (hs : pSTRF[t]? = some (sin alpha))
    (hv : getVec b i = some (x, y, z)) :
    ∃ b1, rfTipLoop Nz pCTRF pSTRF (cos phi) (sin phi) t b = some b1 ∧
      getVec b1 i = some
        (specRodrigues (cos (-alpha)) (sin (-alpha)) (cos phi, sin phi, 0) (x, y, z)) ∧
      specRodrigues (cos (-alpha)) (sin (-alpha)) (cos phi, sin phi, 0) (x, y, z) =
        (x * cos alpha - (cross (cos phi, sin phi, 0) (x, y, z)).1 * sin alpha
            + cos phi * dot (cos phi, sin phi, 0) (x, y, z) * (1 - cos alpha),
         y * cos alpha - (cross (cos phi, sin phi, 0) (x, y, z)).2.1 * sin alpha
            + sin phi * dot (cos phi, sin phi, 0) (x, y, z) * (1 - cos alpha),
         z * cos alpha - (cross (cos phi, sin phi, 0) (x, y, z)).2.2 * sin alpha
            + 0 * dot (cos phi, sin phi, 0) (x, y, z) * (1 - cos alpha)) := by
  obtain ⟨b1, h1, -, -, hv1⟩ := rfTipLoop_spec (cos phi) (sin phi) Nz hc hs hb (le_refl _)
  have hphase : cos phi ^ 2 + sin phi ^ 2 = 1 := cos_sq_add_sin_sq phi
  refine ⟨b1, h1, ?_, ?_⟩
  · rw [hv1 i hi _ hv]
    simp only [rfTipVec, specRodrigues, cross, dot, cos_neg, sin_neg, Option.some.injEq,
      Prod.mk.injEq]
    refine ⟨?_, ?_, ?_⟩
    · linear_combination (x * cos alpha) * hphase
    · linear_combination (y * cos alpha) * hphase
    · ring
  · simp only [specRodrigues, cross, dot, cos_neg, sin_neg, Prod.mk.injEq]
    refine ⟨?_, ?_, ?_⟩ <;> ring

/-- C8 witness: one position, angle `π/2`, phase `0`, vector `(0, 0, 1)`. -/
theorem C8_rf_tip_rodrigues_neg_angle_witness :
    (([0, 0, 1] : List ℝ).length = 3 * 1 ∧ 0 < 1 ∧
      ([cos (π / 2)] : List ℝ)[0]? = some (cos (π / 2)) ∧
      ([sin (π / 2)] : List ℝ)[0]? = some (sin (π / 2)) ∧
      getVec ([0, 0, 1] : List ℝ) 0 = some (0, 0, 1)) ∧
    ∃ b1, rfTipLoop 1 [cos (π / 2)] [sin (π / 2)] (cos 0) (sin 0) 0 [0, 0, 1] = some b1 ∧
      getVec b1 0 = some
        (specRodrigues (cos (-(π / 2))) (sin (-(π / 2))) (cos 0, sin 0, 0) (0, 0, 1)) ∧
      specRodrigues (cos (-(π / 2))) (sin (-(π / 2))) (cos 0, sin 0, 0) (0, 0, 1) =
        (0 * cos (π / 2) - (cross (cos 0, sin 0, 0) (0, 0, 1)).1 * sin (π / 2)
            + cos 0 * dot (cos 0, sin 0, 0) (0, 0, 1) * (1 - cos (π / 2)),
         0 * cos (π / 2) - (cross (cos 0, sin 0, 0) (0, 0, 1)).2.1 * sin (π / 2)
            + sin 0 * dot (cos 0, sin 0, 0) (0, 0, 1) * (1 - cos (π / 2)),
         1 * cos (π / 2) - (cross (cos 0, sin 0, 0) (0, 0, 1)).2.2 * sin (π / 2)
            + 0 * dot (cos 0, sin 0, 0) (0, 0, 1) * (1 - cos (π / 2))) :=
  ⟨⟨rfl, by decide, rfl, rfl, rfl⟩,
    C8_rf_tip_rodrigues_neg_angle 1 [cos (π / 2)] [sin (π / 2)] [0, 0, 1] 0 0 (π / 2) 0 0 0 1
      rfl (by decide) rfl rfl rfl⟩

/-- C9: with `cosTheta[i] = c`, `sinTheta[i] = s` the precession loop maps the
vector `(x, y, z)` at position `i` to some `(x1, y1, z)` such that: when
`c = cos θ`, `s = sin θ`, `x = r cos ψ`, `y = r sin ψ`, then `x1 = r cos (ψ - θ)`
and `y1 = r sin (ψ - θ)`; when `c^2 + s^2 = 1`, then `x1^2 + y1^2 = x^2 + y^2`;
and the pass of the time loop of every time index `t` starts with this same
precession loop, followed by the RF tip loop of `t`. -/
theorem C9_precession_clockwise (Nz : Nat) (pCOS pSIN b : List ℝ) (i : Nat) (c s x y z : ℝ)
    (hb : b.length = 3 * Nz) (hC : pCOS.length = Nz) (hS : pSIN.length = Nz) (hi : i < Nz)
    (hc : pCOS[i]? = some c) (hs : pSIN[i]? = some s) (hv : getVec b i = some (x, y, z)) :
    ∃ b1 x1 y1, precessionLoop Nz pCOS pSIN b = some b1 ∧ getVec b1 i = some (x1, y1, z) ∧
      (∀ θ r ψ : ℝ, c = cos θ → s = sin θ → x = r * cos ψ → y = r * sin ψ →
        x1 = r * cos (ψ - θ) ∧ y1 = r * sin (ψ - θ)) ∧
      (c ^ 2 + s ^ 2 = 1 → x1 ^ 2 + y1 ^ 2 = x ^ 2 + y ^ 2) ∧
      ∀ (pCTRF pSTRF : List ℝ) (cpRF spRF : ℝ) (t : Nat),
        timeBody Nz pCOS pSIN pCTRF pSTRF cpRF spRF t b =
          rfTipLoop Nz pCTRF pSTRF cpRF spRF t b1 := by
  obtain ⟨b1, h1, -, -, hv1⟩ := precessionLoop_spec Nz pCOS pSIN b (by omega) (by omega)
    hb (le_refl _)
  have e1 := hv1 i hi _ hv
  simp only [List.getD_eq_getElem?_getD, hc, hs, Option.getD_some, precessVec] at e1
  refine ⟨b1, _, _, h1, e1, ?_, ?_, ?_⟩
  · rintro θ r ψ rfl rfl rfl rfl
    rw [cos_sub, sin_sub]
    constructor <;> ring
  · intro h
    linear_combination (x ^ 2 + y ^ 2) * h
  · intro pCTRF pSTRF cpRF spRF t
    simp [timeBody, h1]

/-- C9 witness: one position, a quarter turn (`c = 0`, `s = 1`) of `(1, 0, 5)`. -/
theorem C9_precession_clockwise_witness :
    (([1, 0, 5] : List ℝ).length = 3 * 1 ∧ ([0] : List ℝ).length = 1 ∧
      ([1] : List ℝ).length = 1 ∧ 0 < 1 ∧ ([0] : List ℝ)[0]? = some 0 ∧
      ([1] : List ℝ)[0]? = some 1 ∧ getVec ([1, 0, 5] : List ℝ) 0 = some (1, 0, 5)) ∧
    ∃ b1 x1 y1, precessionLoop 1 [(0 : ℝ)] [1] [1, 0, 5] = some b1 ∧
      getVec b1 0 = some (x1, y1, 5) ∧
      (∀ θ r ψ : ℝ, 0 = cos θ → 1 = sin θ → 1 = r * cos ψ → 0 = r * sin ψ →
        x1 = r * cos (ψ - θ) ∧ y1 = r * sin (ψ - θ)) ∧
      ((0 : ℝ) ^ 2 + 1 ^ 2 = 1 → x1 ^ 2 + y1 ^ 2 = 1 ^ 2 + 0 ^ 2) ∧
      ∀ (pCTRF pSTRF : List ℝ) (cpRF spRF : ℝ) (t : Nat),
        timeBody 1 [0] [1] pCTRF pSTRF cpRF spRF t [1, 0, 5] =
          rfTipLoop 1 pCTRF pSTRF cpRF spRF t b1 :=
  ⟨⟨rfl, rfl, rfl, by decide, rfl, rfl, rfl⟩,
    C9_precession_clockwise 1 [0] [1] [1, 0, 5] 0 0 1 1 0 5 rfl rfl rfl (by decide) rfl rfl rfl⟩

/-- C10: with `cosAlpha[t] = -1`, `sinAlpha[t] = 0`, `cpRF = 1`, `spRF = 0` the
RF tip loop maps the vector `(x, y, z)` at every position to `(x, -y, -z)`, so
`(0, 0, 1)` to `(0, 0, -1)`; and the simulation with `Nt = 1` started from a
field holding `(0, 0, 1)` at position `i` returns `(0, 0, -1)` at position
`i`, for every `cosTheta`, `sinTheta`. -/
theorem C10_flip_180 (Nz : Nat) (pMin pCOS pSIN pCTRF pSTRF b : List ℝ) (t i : Nat)
    (x y z : ℝ) (hb : b.length = 3 * Nz) (hi : i < Nz)
    (hc : pCTRF[t]? = some (-1)) (hs : pSTRF[t]? = some 0)
    (hv : getVec b i = some (x, y, z))
    (hm : pMin.length = 3 * Nz) (hC : pCOS.length = Nz) (hS : pSIN.length = Nz)
    (hz : getVec pMin i = some (0, 0, 1)) :
    (∃ b1, rfTipLoop Nz pCTRF pSTRF 1 0 t b = some b1 ∧ getVec b1 i = some (x, -y, -z)) ∧
    ((x, y, z) = (0, 0, 1) → (x, -y, -z) = (0, 0, -1)) ∧
    ∃ out, mexFunction [⟨3, Nz, pMin⟩, ⟨1, Nz, pCOS⟩, ⟨1, Nz, pSIN⟩, ⟨1, 1, [-1]⟩,
        ⟨1, 1, [0]⟩, ⟨1, 1, [1]⟩, ⟨1, 1, [0]⟩] = some ⟨3, Nz, out⟩ ∧
      getVec out i = some (0, 0, -1) := by
  refine ⟨?_, ?_, ?_⟩
  · obtain ⟨b1, h1, -, -, hv1⟩ := rfTipLoop_spec (1 : ℝ) 0 Nz hc hs hb (le_refl _)
    refine ⟨b1, h1, ?_⟩
    rw [hv1 i hi _ hv]
    simp [rfTipVec]
  · intro h
    simp only [Prod.mk.injEq] at h
    obtain ⟨rfl, rfl, rfl⟩ := h
    simp
  · obtain ⟨out, h1, -, hv1⟩ :=
      mexFunction_rows Nz 1 pMin pCOS pSIN [-1] [0] 1 0 hm hC hS rfl rfl
    refine ⟨out, h1, ?_⟩
    rw [hv1 i hi _ hz]
    simp [simVec, precessVec, rfTipVec]

/-- C10 witness: two positions, the second holding `(0, 0, 1)`. -/
theorem C10_flip_180_witness :
    (([2, 3, 5, 7, 8, 9] : List ℝ).length = 3 * 2 ∧ 1 < 2 ∧
      ([-1] : List ℝ)[0]? = some (-1 : ℝ) ∧ ([0] : List ℝ)[0]? = some 0 ∧
      getVec ([2, 3, 5, 7, 8, 9] : List ℝ) 1 = some (7, 8, 9) ∧
      ([4, 4, 4, 0, 0, 1] : List ℝ).length = 3 * 2 ∧ ([3, 4] : List ℝ).length = 2 ∧
      ([5, 6] : List ℝ).length = 2 ∧
      getVec ([4, 4, 4, 0, 0, 1] : List ℝ) 1 = some (0, 0, 1)) ∧
    ((∃ b1, rfTipLoop 2 [(-1 : ℝ)] [0] 1 0 0 [2, 3, 5, 7, 8, 9] = some b1 ∧
        getVec b1 1 = some (7, -8, -9)) ∧
    (((7 : ℝ), (8 : ℝ), (9 : ℝ)) = (0, 0, 1) → ((7 : ℝ), -(8 : ℝ), -(9 : ℝ)) = (0, 0, -1)) ∧
    ∃ out, mexFunction [⟨3, 2, [4, 4, 4, 0, 0, 1]⟩, ⟨1, 2, [3, 4]⟩, ⟨1, 2, [5, 6]⟩,
        ⟨1, 1, [-1]⟩, ⟨1, 1, [0]⟩, ⟨1, 1, [1]⟩, ⟨1, 1, [0]⟩] = some ⟨3, 2, out⟩ ∧
      getVec out 1 = some ((0 : ℝ), 0, -1)) :=
  ⟨⟨rfl, by decide, rfl, rfl, rfl, rfl, rfl, rfl, rfl⟩,
    C10_flip_180 2 [4, 4, 4, 0, 0, 1] [3, 4] [5, 6] [-1] [0] [2, 3, 5, 7, 8, 9] 0 1 7 8 9
      rfl (by decide) rfl rfl rfl rfl rfl rfl rfl⟩

/-- C11: on every input of consistent shape (initial field of `3*Nz`
elements, `cosTheta`, `sinTheta` of `Nz` elements, `cosAlpha`, `sinAlpha` of
`Nt` elements, scalar `cpRF`, `spRF`), `Nz = 0` and `Nt = 0` included,
`mexFunction` returns a result, so no read or write leaves its array; the
output has exactly `3*Nz` elements and is empty when `Nz = 0`.  The statement
holds in every commutative ring: the computation uses no division. -/
theorem C11_bounds_safety {α : Type} [CommRing α] (Nz Nt : Nat)
    (pMin pCOS pSIN pCTRF pSTRF : List α) (cpRF spRF : α)
    (hm : pMin.length = 3 * Nz) (hC : pCOS.length = Nz) (hS : pSIN.length = Nz)
    (hct : pCTRF.length = Nt) (hst : pSTRF.length = Nt) :
    ∃ out, mexFunction [⟨3, Nz, pMin⟩, ⟨1, Nz, pCOS⟩, ⟨1, Nz, pSIN⟩, ⟨1, Nt, pCTRF⟩,
        ⟨1, Nt, pSTRF⟩, ⟨1, 1, [cpRF]⟩, ⟨1, 1, [spRF]⟩] = some ⟨3, Nz, out⟩ ∧
      out.length = 3 * Nz ∧ (Nz = 0 → out = []) := by
  obtain ⟨out, h1, hl, -⟩ :=
    mexFunction_rows Nz Nt pMin pCOS pSIN pCTRF pSTRF cpRF spRF hm hC hS hct hst
  refine ⟨out, h1, hl, ?_⟩
  intro h0
  apply List.eq_nil_of_length_eq_zero
  omega

/-- C11 witness: no position and two time steps, over the integers. -/
theorem C11_bounds_safety_witness :
    (([] : List ℤ).length = 3 * 0 ∧ ([] : List ℤ).length = 0 ∧ ([] : List ℤ).length = 0 ∧
      ([0, -1] : List ℤ).length = 2 ∧ ([1, 0] : List ℤ).length = 2) ∧
    ∃ out, mexFunction [⟨3, 0, ([] : List ℤ)⟩, ⟨1, 0, []⟩, ⟨1, 0, []⟩, ⟨1, 2, [0, -1]⟩,
        ⟨1, 2, [1, 0]⟩, ⟨1, 1, [1]⟩, ⟨1, 1, [0]⟩] = some ⟨3, 0, out⟩ ∧
      out.length = 3 * 0 ∧ (0 = 0 → out = []) :=
  ⟨⟨rfl, rfl, rfl, rfl, rfl⟩,
    C11_bounds_safety 0 2 ([] : List ℤ) [] [] [0, -1] [1, 0] 1 0 rfl rfl rfl rfl rfl⟩

/-- C12: simulating the concatenation of two pulses from the initial field
gives the result of simulating the second pulse from the output of the first
(same `cosTheta`, `sinTheta`, `cpRF`, `spRF`); and a run of `n1 + 1` steps
gives the result of the `n1`-step run followed by the precession loop and then
the RF tip loop with the last `cosAlpha`, `sinAlpha`. -/
theorem C12_sequential_time_steps (Nz n1 n2 : Nat) (pMin pCOS pSIN c1 s1 c2 s2 : List ℝ)
    (cpRF spRF ca sa : ℝ)
    (hm : pMin.length = 3 * Nz) (hC : pCOS.length = Nz) (hS : pSIN.length = Nz)
    (h1 : c1.length = n1) (h1s : s1.length = n1) (h2 : c2.length = n2)
    (h2s : s2.length = n2) :
    (∃ mid out,
      mexFunction [⟨3, Nz, pMin⟩, ⟨1, Nz, pCOS⟩, ⟨1, Nz, pSIN⟩, ⟨1, n1, c1⟩, ⟨1, n1, s1⟩,
        ⟨1, 1, [cpRF]⟩, ⟨1, 1, [spRF]⟩] = some ⟨3, Nz, mid⟩ ∧
      mexFunction [⟨3, Nz, mid⟩, ⟨1, Nz, pCOS⟩, ⟨1, Nz, pSIN⟩, ⟨1, n2, c2⟩, ⟨1, n2, s2⟩,
        ⟨1, 1, [cpRF]⟩, ⟨1, 1, [spRF]⟩] = some ⟨3, Nz, out⟩ ∧
      mexFunction [⟨3, Nz, pMin⟩, ⟨1, Nz, pCOS⟩, ⟨1, Nz, pSIN⟩, ⟨1, n1 + n2, c1 ++ c2⟩,
        ⟨1, n1 + n2, s1 ++ s2⟩, ⟨1, 1, [cpRF]⟩, ⟨1, 1, [spRF]⟩] = some ⟨3, Nz, out⟩) ∧
    (∃ mid b1 out,
      mexFunction [⟨3, Nz, pMin⟩, ⟨1, Nz, pCOS⟩, ⟨1, Nz, pSIN⟩, ⟨1, n1, c1⟩, ⟨1, n1, s1⟩,
        ⟨1, 1, [cpRF]⟩, ⟨1, 1, [spRF]⟩] = some ⟨3, Nz, mid⟩ ∧
      precessionLoop Nz pCOS pSIN mid = some b1 ∧
      rfTipLoop Nz (c1 ++ [ca]) (s1 ++ [sa]) cpRF spRF n1 b1 = some out ∧
      mexFunction [⟨3, Nz, pMin⟩, ⟨1, Nz, pCOS⟩, ⟨1, Nz, pSIN⟩, ⟨1, n1 + 1, c1 ++ [ca]⟩,
        ⟨1, n1 + 1, s1 ++ [sa]⟩, ⟨1, 1, [cpRF]⟩, ⟨1, 1, [spRF]⟩] = some ⟨3, Nz, out⟩) := by
  obtain ⟨mid, e1, l1, -, -⟩ := timeLoop_spec cpRF spRF (le_of_eq hC.symm) (le_of_eq hS.symm)
    hm (le_refl _) n1 (le_of_eq h1.symm) (le_of_eq h1s.symm)
  have r1 : mexFunction [⟨3, Nz, pMin⟩, ⟨1, Nz, pCOS⟩, ⟨1, Nz, pSIN⟩, ⟨1, n1, c1⟩,
      ⟨1, n1, s1⟩, ⟨1, 1, [cpRF]⟩, ⟨1, 1, [spRF]⟩] = some ⟨3, Nz, mid⟩ := by
    rw [mexFunction_eq_timeLoop Nz pMin _ _ _ _ cpRF spRF hm]
    simp only [e1]
    rfl
  constructor
  · obtain ⟨out, e2, -, -, -⟩ := timeLoop_spec cpRF spRF (le_of_eq hC.symm)
      (le_of_eq hS.symm) l1 (le_refl _) n2 (le_of_eq h2.symm) (le_of_eq h2s.symm)
    refine ⟨mid, out, r1, ?_, ?_⟩
    · rw [mexFunction_eq_timeLoop Nz mid _ _ _ _ cpRF spRF l1]
      simp only [e2]
      rfl
    · rw [mexFunction_eq_timeLoop Nz pMin _ _ _ _ cpRF spRF hm]
      simp only [timeLoop_append Nz n1 n2 pCOS pSIN c1 s1 c2 s2 cpRF spRF h1 h1s, e1]
      simp only [Option.bind, e2]
  · obtain ⟨b1, e3, l3, -, -⟩ := precessionLoop_spec Nz pCOS pSIN mid (le_of_eq hC.symm)
      (le_of_eq hS.symm) l1 (le_refl _)
    have hca : (c1 ++ [ca])[n1]? = some ca := by
      rw [List.getElem?_append_right (by omega)]
      simp [h1]
    have hsa : (s1 ++ [sa])[n1]? = some sa := by
      rw [List.getElem?_append_right (by omega)]
      simp [h1s]
    obtain ⟨out, e4, -, -, -⟩ := rfTipLoop_spec cpRF spRF Nz hca hsa l3 (le_refl _)
    refine ⟨mid, b1, out, r1, e3, e4, ?_⟩
    rw [mexFunction_eq_timeLoop Nz pMin _ _ _ _ cpRF spRF hm]
    have e5 : timeLoop Nz (n1 + 1) pCOS pSIN (c1 ++ [ca]) (s1 ++ [sa]) cpRF spRF pMin =
        some out := by
      have e6 := timeLoop_append_left Nz n1 pCOS pSIN c1 s1 [ca] [sa] cpRF spRF h1 h1s pMin
      unfold timeLoop at e6 e1 ⊢
      rw [forLoop_succ, e6, e1]
      simp only [Option.bind, timeBody, e3]
      exact e4
    simp only [e5]
    rfl

/-- C12 witness: one position, a prefix of one step and a suffix of one step. -/
theorem C12_sequential_time_steps_witness :
    (([0, 0, 1] : List ℝ).length = 3 * 1 ∧ ([1] : List ℝ).length = 1 ∧
      ([0] : List ℝ).length = 1 ∧ ([0] : List ℝ).length = 1 ∧ ([1] : List ℝ).length = 1 ∧
      ([-1] : List ℝ).length = 1 ∧ ([0] : List ℝ).length = 1) ∧
    ((∃ mid out,
      mexFunction [⟨3, 1, [(0 : ℝ), 0, 1]⟩, ⟨1, 1, [1]⟩, ⟨1, 1, [0]⟩, ⟨1, 1, [0]⟩, ⟨1, 1, [1]⟩,
        ⟨1, 1, [1]⟩, ⟨1, 1, [0]⟩] = some ⟨3, 1, mid⟩ ∧
      mexFunction [⟨3, 1, mid⟩, ⟨1, 1, [1]⟩, ⟨1, 1, [0]⟩, ⟨1, 1, [-1]⟩, ⟨1, 1, [0]⟩,
        ⟨1, 1, [1]⟩, ⟨1, 1, [0]⟩] = some ⟨3, 1, out⟩ ∧
      mexFunction [⟨3, 1, [0, 0, 1]⟩, ⟨1, 1, [1]⟩, ⟨1, 1, [0]⟩, ⟨1, 1 + 1, [0] ++ [-1]⟩,
        ⟨1, 1 + 1, [1] ++ [0]⟩, ⟨1, 1, [1]⟩, ⟨1, 1, [0]⟩] = some ⟨3, 1, out⟩) ∧
    (∃ mid b1 out,
      mexFunction [⟨3, 1, [(0 : ℝ), 0, 1]⟩, ⟨1, 1, [1]⟩, ⟨1, 1, [0]⟩, ⟨1, 1, [0]⟩, ⟨1, 1, [1]⟩,
        ⟨1, 1, [1]⟩, ⟨1, 1, [0]⟩] = some ⟨3, 1, mid⟩ ∧
      precessionLoop 1 [1] [0] mid = some b1 ∧
      rfTipLoop 1 ([0] ++ [2]) ([1] ++ [3]) 1 0 1 b1 = some out ∧
      mexFunction [⟨3, 1, [0, 0, 1]⟩, ⟨1, 1, [1]⟩, ⟨1, 1, [0]⟩, ⟨1, 1 + 1, [0] ++ [2]⟩,
        ⟨1, 1 + 1, [1] ++ [3]⟩, ⟨1, 1, [1]⟩, ⟨1, 1, [0]⟩] = some ⟨3, 1, out⟩)) :=
  ⟨⟨rfl, rfl, rfl, rfl, rfl, rfl, rfl⟩,
    C12_sequential_time_steps 1 1 1 [0, 0, 1] [1] [0] [0] [1] [-1] [0] 1 0 2 3
      rfl rfl rfl rfl rfl rfl rfl⟩

/-- C13: for every field and every `cosTheta`, `sinTheta` the precession loop
keeps the size of the buffer, keeps the `Mz` component of every position, and
leaves every element other than `3*i` and `3*i+1` (`i < Nz`) as it was. -/
theorem C13_precession_transverse_only (Nz : Nat) (pCOS pSIN b : List ℝ)
    (hb : 3 * Nz ≤ b.length) (hC : pCOS.length = Nz) (hS : pSIN.length = Nz) :
    ∃ b1, precessionLoop Nz pCOS pSIN b = some b1 ∧ b1.length = b.length ∧
      (∀ i x y z, i < Nz → getVec b i = some (x, y, z) →
        ∃ x1 y1, getVec b1 i = some (x1, y1, z)) ∧
      ∀ k, (∀ i, i < Nz → k ≠ 3 * i ∧ k ≠ 3 * i + 1) → b1[k]? = b[k]? := by
  obtain ⟨b1, h1, hl, hk, hv⟩ := precessionLoop_spec Nz pCOS pSIN b (le_of_eq hC.symm)
    (le_of_eq hS.symm) rfl hb
  refine ⟨b1, h1, hl, ?_, ?_⟩
  · intro i x y z hi hxyz
    exact ⟨_, _, hv i hi _ hxyz⟩
  · intro k hne
    by_cases hlt : k / 3 < Nz
    · obtain ⟨h3, h4⟩ := hne (k / 3) hlt
      have hk2 : k = 3 * (k / 3) + 2 := by omega
      obtain ⟨v, hv0⟩ := getVec_of_lt (p := b) (i := k / 3) (by omega)
      have hv1 := getVec_eq_some.mp (hv (k / 3) hlt v hv0)
      have hv2 := getVec_eq_some.mp hv0
      rw [hk2, hv1.2.2, hv2.2.2]
      rfl
    · exact hk k (by omega)

/-- C13 witness: two positions in a buffer with one spare element. -/
theorem C13_precession_transverse_only_witness :
    (3 * 2 ≤ ([1, 2, 3, 4, 5, 6, 7] : List ℝ).length ∧ ([2, 3] : List ℝ).length = 2 ∧
      ([5, 7] : List ℝ).length = 2) ∧
    ∃ b1, precessionLoop 2 [2, 3] [5, 7] [(1 : ℝ), 2, 3, 4, 5, 6, 7] = some b1 ∧
      b1.length = ([1, 2, 3, 4, 5, 6, 7] : List ℝ).length ∧
      (∀ i x y z, i < 2 → getVec [(1 : ℝ), 2, 3, 4, 5, 6, 7] i = some (x, y, z) →
        ∃ x1 y1, getVec b1 i = some (x1, y1, z)) ∧
      ∀ k, (∀ i, i < 2 → k ≠ 3 * i ∧ k ≠ 3 * i + 1) →
        b1[k]? = [(1 : ℝ), 2, 3, 4, 5, 6, 7][k]? :=
  ⟨⟨by decide, rfl, rfl⟩,
    C13_precession_transverse_only 2 [2, 3] [5, 7] [1, 2, 3, 4, 5, 6, 7] (by decide) rfl rfl⟩

/-- C14: for all real `cpRF`, `spRF`, `cosAlpha[t]`, `sinAlpha[t]` the RF tip
loop maps the vector `v` at every position to `(Z * X * Zᵀ) v`, which is the
result of applying `Zᵀ`, then `X`, then `Z` to `v`. -/
theorem C14_rf_tip_three_rotations (Nz : Nat) (pCTRF pSTRF b : List ℝ) (cpRF spRF : ℝ)
    (t i : Nat) (ct st Mx My Mz : ℝ) (hb : b.length = 3 * Nz) (hi : i < Nz)
    (hc : pCTRF[t]? = some ct) (hs : pSTRF[t]? = some st)
    (hv : getVec b i = some (Mx, My, Mz)) :
    ∃ b1, rfTipLoop Nz pCTRF pSTRF cpRF spRF t b = some b1 ∧
      getVec b1 i = some
        (Matrix.mulVec (specZ cpRF spRF * specX ct st * Matrix.transpose (specZ cpRF spRF))
            ![Mx, My, Mz] 0,
         Matrix.mulVec (specZ cpRF spRF * specX ct st * Matrix.transpose (specZ cpRF spRF))
            ![Mx, My, Mz] 1,
         Matrix.mulVec (specZ cpRF spRF * specX ct st * Matrix.transpose (specZ cpRF spRF))
            ![Mx, My, Mz] 2) ∧
      Matrix.mulVec (specZ cpRF spRF * specX ct st * Matrix.transpose (specZ cpRF spRF))
          ![Mx, My, Mz] =
        Matrix.mulVec (specZ cpRF spRF) (Matrix.mulVec (specX ct st)
          (Matrix.mulVec (Matrix.transpose (specZ cpRF spRF)) ![Mx, My, Mz])) := by
  obtain ⟨b1, h1, -, -, hv1⟩ := rfTipLoop_spec cpRF spRF Nz hc hs hb (le_refl _)
  refine ⟨b1, h1, ?_, ?_⟩
  · have hT : Matrix.transpose (specZ cpRF spRF) =
        !![cpRF, spRF, 0; -spRF, cpRF, 0; 0, 0, 1] := by
      ext j k
      fin_cases j <;> fin_cases k <;> rfl
    rw [hv1 i hi _ hv, hT]
    simp only [rfTipVec, specZ, specX, Option.some.injEq, Prod.mk.injEq, Matrix.mul_fin_three]
    refine ⟨?_, ?_, ?_⟩ <;>
      simp [Matrix.mulVec, Matrix.dotProduct, Fin.sum_univ_three] <;> ring
  · simp only [Matrix.mulVec_mulVec, Matrix.mul_assoc]

/-- C14 witness: one position, `cpRF = 3`, `spRF = 4`, `cosAlpha = 5`, `sinAlpha = 6`. -/
theorem C14_rf_tip_three_rotations_witness :
    (([1, 2, 7] : List ℝ).length = 3 * 1 ∧ 0 < 1 ∧ ([5] : List ℝ)[0]? = some 5 ∧
      ([6] : List ℝ)[0]? = some 6 ∧ getVec ([1, 2, 7] : List ℝ) 0 = some (1, 2, 7)) ∧
    ∃ b1, rfTipLoop 1 [(5 : ℝ)] [6] 3 4 0 [1, 2, 7] = some b1 ∧
      getVec b1 0 = some
        (Matrix.mulVec (specZ (3 : ℝ) 4 * specX 5 6 * Matrix.transpose (specZ 3 4))
            ![1, 2, 7] 0,
         Matrix.mulVec (specZ (3 : ℝ) 4 * specX 5 6 * Matrix.transpose (specZ 3 4))
            ![1, 2, 7] 1,
         Matrix.mulVec (specZ (3 : ℝ) 4 * specX 5 6 * Matrix.transpose (specZ 3 4))
            ![1, 2, 7] 2) ∧
      Matrix.mulVec (specZ (3 : ℝ) 4 * specX 5 6 * Matrix.transpose (specZ 3 4))
          ![1, 2, 7] =
        Matrix.mulVec (specZ 3 4) (Matrix.mulVec (specX 5 6)
          (Matrix.mulVec (Matrix.transpose (specZ 3 4)) ![1, 2, 7])) :=
  ⟨⟨rfl, by decide, rfl, rfl, rfl⟩,
    C14_rf_tip_three_rotations 1 [5] [6] [1, 2, 7] 3 4 0 0 5 6 1 2 7 rfl (by decide) rfl rfl
      rfl⟩

/-- C15: when every precession pair, every RF tip pair and the phase pair lie
on the unit circle, the output vector at every position has the squared length
of the initial vector at that position. -/
theorem C15_simulation_preserves_norm (Nz Nt : Nat) (pMin pCOS pSIN pCTRF pSTRF : List ℝ)
    (cpRF spRF : ℝ) (i : Nat) (Mx My Mz : ℝ)
    (hm : pMin.length = 3 * Nz) (hC : pCOS.length = Nz) (hS : pSIN.length = Nz)
    (hct : pCTRF.length = Nt) (hst : pSTRF.length = Nt)
    (htheta : ∀ (j : Nat) (c s : ℝ), pCOS[j]? = some c → pSIN[j]? = some s → c ^ 2 + s ^ 2 = 1)
    (halpha : ∀ (t : Nat) (ct st : ℝ), pCTRF[t]? = some ct → pSTRF[t]? = some st → ct ^ 2 + st ^ 2 = 1)
    (hphase : cpRF ^ 2 + spRF ^ 2 = 1) (hi : i < Nz)
    (hv : getVec pMin i = some (Mx, My, Mz)) :
    ∃ out x y z, mexFunction [⟨3, Nz, pMin⟩, ⟨1, Nz, pCOS⟩, ⟨1, Nz, pSIN⟩, ⟨1, Nt, pCTRF⟩,
        ⟨1, Nt, pSTRF⟩, ⟨1, 1, [cpRF]⟩, ⟨1, 1, [spRF]⟩] = some ⟨3, Nz, out⟩ ∧
      getVec out i = some (x, y, z) ∧
      x ^ 2 + y ^ 2 + z ^ 2 = Mx ^ 2 + My ^ 2 + Mz ^ 2 := by
  obtain ⟨out, h1, -, hv1⟩ :=
    mexFunction_rows Nz Nt pMin pCOS pSIN pCTRF pSTRF cpRF spRF hm hC hS hct hst
  refine ⟨out, _, _, _, h1, hv1 i hi _ hv, ?_⟩
  exact simVec_norm _ _ cpRF spRF pCTRF pSTRF
    (htheta i _ _ (getD_of_lt (by omega)) (getD_of_lt (by omega))) hphase Nt
    (fun t ht => halpha t _ _ (getD_of_lt (by omega)) (getD_of_lt (by omega))) (Mx, My, Mz)

/-- C15 witness: one position with precession pair `(3/5, 4/5)`, two time
steps with RF pairs `(0, 1)` and `(-1, 0)`, phase pair `(0, 1)`. -/
theorem C15_simulation_preserves_norm_witness :
    (([2, 3, 5] : List ℝ).length = 3 * 1 ∧ ([3 / 5] : List ℝ).length = 1 ∧
      ([4 / 5] : List ℝ).length = 1 ∧ ([0, -1] : List ℝ).length = 2 ∧
      ([1, 0] : List ℝ).length = 2 ∧
      (∀ (j : Nat) (c s : ℝ), ([3 / 5] : List ℝ)[j]? = some c → ([4 / 5] : List ℝ)[j]? = some s →
        c ^ 2 + s ^ 2 = 1) ∧
      (∀ (t : Nat) (ct st : ℝ), ([0, -1] : List ℝ)[t]? = some ct → ([1, 0] : List ℝ)[t]? = some st →
        ct ^ 2 + st ^ 2 = 1) ∧
      (0 : ℝ) ^ 2 + 1 ^ 2 = 1 ∧ 0 < 1 ∧ getVec ([2, 3, 5] : List ℝ) 0 = some (2, 3, 5)) ∧
    ∃ out x y z, mexFunction [⟨3, 1, [2, 3, 5]⟩, ⟨1, 1, [3 / 5]⟩, ⟨1, 1, [4 / 5]⟩,
        ⟨1, 2, [0, -1]⟩, ⟨1, 2, [1, 0]⟩, ⟨1, 1, [0]⟩, ⟨1, 1, [1]⟩] = some ⟨3, 1, out⟩ ∧
      getVec out 0 = some (x, y, z) ∧
      x ^ 2 + y ^ 2 + z ^ 2 = (2 : ℝ) ^ 2 + 3 ^ 2 + 5 ^ 2 :=
  have htheta : ∀ (j : Nat) (c s : ℝ), ([3 / 5] : List ℝ)[j]? = some c → ([4 / 5] : List ℝ)[j]? = some s →
      c ^ 2 + s ^ 2 = 1 := by
    intro j c s hc hs
    match j, hc, hs with
    | 0, hc, hs =>
      cases hc
      cases hs
      norm_num
  have halpha : ∀ (t : Nat) (ct st : ℝ), ([0, -1] : List ℝ)[t]? = some ct →
      ([1, 0] : List ℝ)[t]? = some st → ct ^ 2 + st ^ 2 = 1 := by
    intro t ct st hc hs
    match t, hc, hs with
    | 0, hc, hs =>
      cases hc
      cases hs
      norm_num
    | 1, hc, hs =>
      cases hc
      cases hs
      norm_num
  ⟨⟨rfl, rfl, rfl, rfl, rfl, htheta, halpha, by norm_num, by decide, rfl⟩,
    C15_simulation_preserves_norm 1 2 [2, 3, 5] [3 / 5] [4 / 5] [0, -1] [1, 0] 0 1 0 2 3 5
      rfl rfl rfl rfl rfl htheta halpha (by norm_num) (by decide) rfl⟩

/-- C16: for all real `cpRF`, `spRF`, the RF tip loop with `cosAlpha[t] = 1`,
`sinAlpha[t] = 0` maps the vector `(Mx, My, Mz)` at every position to
`((cpRF^2 + spRF^2)*Mx, (cpRF^2 + spRF^2)*My, Mz)`; it returns every vector
unchanged if and only if `cpRF^2 + spRF^2 = 1`. -/
theorem C16_zero_flip_scaling (Nz : Nat) (pCTRF pSTRF b : List ℝ) (cpRF spRF : ℝ)
    (t i : Nat) (Mx My Mz : ℝ) (hb : b.length = 3 * Nz) (hi : i < Nz)
    (hc : pCTRF[t]? = some 1) (hs : pSTRF[t]? = some 0)
    (hv : getVec b i = some (Mx, My, Mz)) :
    (∃ b1, rfTipLoop Nz pCTRF pSTRF cpRF spRF t b = some b1 ∧
      getVec b1 i = some
        ((cpRF ^ 2 + spRF ^ 2) * Mx, (cpRF ^ 2 + spRF ^ 2) * My, Mz)) ∧
    ((∀ x y z : ℝ, rfTipLoop 1 pCTRF pSTRF cpRF spRF t [x, y, z] = some [x, y, z]) ↔
      cpRF ^ 2 + spRF ^ 2 = 1) := by
  have hone : ∀ x y z : ℝ, rfTipLoop 1 pCTRF pSTRF cpRF spRF t [x, y, z] =
      some [(cpRF ^ 2 + spRF ^ 2) * x, (cpRF ^ 2 + spRF ^ 2) * y, z] := by
    intro x y z
    obtain ⟨b1, h1, hl, -, hv1⟩ := rfTipLoop_spec cpRF spRF 1 hc hs
      (rfl : [x, y, z].length = 3 * 1) (le_refl _)
    rw [h1, eq_of_getVec_zero hl (hv1 0 (by decide) (x, y, z) rfl)]
    simp only [rfTipVec, Option.some.injEq, List.cons.injEq, and_true]
    refine ⟨?_, ?_, ?_⟩ <;> ring
  constructor
  · obtain ⟨b1, h1, -, -, hv1⟩ := rfTipLoop_spec cpRF spRF Nz hc hs hb (le_refl _)
    refine ⟨b1, h1, ?_⟩
    rw [hv1 i hi _ hv]
    simp only [rfTipVec, Option.some.injEq, Prod.mk.injEq]
    refine ⟨?_, ?_, ?_⟩ <;> ring
  · constructor
    · intro h
      have h1 := h 1 0 0
      rw [hone] at h1
      simp only [Option.some.injEq, List.cons.injEq, and_true] at h1
      linarith [h1.1]
    · intro h x y z
      rw [hone, h]
      simp

/-- C16 witness: one position, `cpRF = 3`, `spRF = 4`, vector `(1, 2, 7)`. -/
theorem C16_zero_flip_scaling_witness :
    (([1, 2, 7] : List ℝ).length = 3 * 1 ∧ 0 < 1 ∧ ([1] : List ℝ)[0]? = some 1 ∧
      ([0] : List ℝ)[0]? = some 0 ∧ getVec ([1, 2, 7] : List ℝ) 0 = some (1, 2, 7)) ∧
    ((∃ b1, rfTipLoop 1 [(1 : ℝ)] [0] 3 4 0 [1, 2, 7] = some b1 ∧
      getVec b1 0 = some
        (((3 : ℝ) ^ 2 + 4 ^ 2) * 1, ((3 : ℝ) ^ 2 + 4 ^ 2) * 2, 7)) ∧
    ((∀ x y z : ℝ, rfTipLoop 1 [(1 : ℝ)] [0] 3 4 0 [x, y, z] = some [x, y, z]) ↔
      (3 : ℝ) ^ 2 + 4 ^ 2 = 1)) :=
  ⟨⟨rfl, by decide, rfl, rfl, rfl⟩,
    C16_zero_flip_scaling 1 [1] [0] [1, 2, 7] 3 4 0 0 1 2 7 rfl (by decide) rfl rfl rfl⟩

/-- C17: for fixed tables and phase pair, the simulation of the field
`a*M + b*N` is `a` times the simulation of `M` plus `b` times the simulation
of `N`, element by element; and the all-zero field is mapped to the all-zero
field. -/
theorem C17_linearity (Nz Nt : Nat) (pM pN pCOS pSIN pCTRF pSTRF : List ℝ)
    (cpRF spRF a b : ℝ)
    (hM : pM.length = 3 * Nz) (hN : pN.length = 3 * Nz)
    (hC : pCOS.length = Nz) (hS : pSIN.length = Nz)
    (hct : pCTRF.length = Nt) (hst : pSTRF.length = Nt) :
    (∃ outM outN,
      mexFunction [⟨3, Nz, pM⟩, ⟨1, Nz, pCOS⟩, ⟨1, Nz, pSIN⟩, ⟨1, Nt, pCTRF⟩,
        ⟨1, Nt, pSTRF⟩, ⟨1, 1, [cpRF]⟩, ⟨1, 1, [spRF]⟩] = some ⟨3, Nz, outM⟩ ∧
      mexFunction [⟨3, Nz, pN⟩, ⟨1, Nz, pCOS⟩, ⟨1, Nz, pSIN⟩, ⟨1, Nt, pCTRF⟩,
        ⟨1, Nt, pSTRF⟩, ⟨1, 1, [cpRF]⟩, ⟨1, 1, [spRF]⟩] = some ⟨3, Nz, outN⟩ ∧
      mexFunction [⟨3, Nz, List.zipWith (fun m n => a * m + b * n) pM pN⟩, ⟨1, Nz, pCOS⟩,
        ⟨1, Nz, pSIN⟩, ⟨1, Nt, pCTRF⟩, ⟨1, Nt, pSTRF⟩, ⟨1, 1, [cpRF]⟩, ⟨1, 1, [spRF]⟩] =
        some ⟨3, Nz, List.zipWith (fun m n => a * m + b * n) outM outN⟩) ∧
    mexFunction [⟨3, Nz, List.replicate (3 * Nz) 0⟩, ⟨1, Nz, pCOS⟩, ⟨1, Nz, pSIN⟩,
        ⟨1, Nt, pCTRF⟩, ⟨1, Nt, pSTRF⟩, ⟨1, 1, [cpRF]⟩, ⟨1, 1, [spRF]⟩] =
      some ⟨3, Nz, List.replicate (3 * Nz) 0⟩ := by
  constructor
  · have hL : (List.zipWith (fun m n => a * m + b * n) pM pN).length = 3 * Nz := by
      simp [hM, hN]
    obtain ⟨outM, eM, lM, vM⟩ :=
      mexFunction_rows Nz Nt pM pCOS pSIN pCTRF pSTRF cpRF spRF hM hC hS hct hst
    obtain ⟨outN, eN, lN, vN⟩ :=
      mexFunction_rows Nz Nt pN pCOS pSIN pCTRF pSTRF cpRF spRF hN hC hS hct hst
    obtain ⟨outL, eL, lL, vL⟩ :=
      mexFunction_rows Nz Nt _ pCOS pSIN pCTRF pSTRF cpRF spRF hL hC hS hct hst
    refine ⟨outM, outN, eM, eN, ?_⟩
    rw [eL]
    have hout : outL = List.zipWith (fun m n => a * m + b * n) outM outN := by
      apply ext_getVec lL (by simp [lM, lN])
      intro i hi
      obtain ⟨v, hv⟩ := getVec_of_lt (p := pM) (i := i) (by omega)
      obtain ⟨w, hw⟩ := getVec_of_lt (p := pN) (i := i) (by omega)
      rw [vL i hi _ (getVec_zipWith a b hv hw), simVec_lin,
        getVec_zipWith a b (vM i hi v hv) (vN i hi w hw)]
    rw [hout]
  · obtain ⟨out, e, l, hv⟩ := mexFunction_rows Nz Nt (List.replicate (3 * Nz) 0) pCOS pSIN
      pCTRF pSTRF cpRF spRF (by simp) hC hS hct hst
    rw [e]
    have hout : out = List.replicate (3 * Nz) 0 := by
      apply ext_getVec l (by simp)
      intro i hi
      rw [hv i hi _ (getVec_replicate_zero hi), simVec_zero, getVec_replicate_zero hi]
    rw [hout]

/-- C17 witness: one position and one time step, the fields `(1, 2, 3)` and
`(4, 5, 6)` with the scalars `2` and `-1`. -/
theorem C17_linearity_witness :
    (([1, 2, 3] : List ℝ).length = 3 * 1 ∧ ([4, 5, 6] : List ℝ).length = 3 * 1 ∧
      ([3 / 5] : List ℝ).length = 1 ∧ ([4 / 5] : List ℝ).length = 1 ∧
      ([0] : List ℝ).length = 1 ∧ ([1] : List ℝ).length = 1) ∧
    ((∃ outM outN,
      mexFunction [⟨3, 1, [(1 : ℝ), 2, 3]⟩, ⟨1, 1, [3 / 5]⟩, ⟨1, 1, [4 / 5]⟩, ⟨1, 1, [0]⟩,
        ⟨1, 1, [1]⟩, ⟨1, 1, [1]⟩, ⟨1, 1, [0]⟩] = some ⟨3, 1, outM⟩ ∧
      mexFunction [⟨3, 1, [(4 : ℝ), 5, 6]⟩, ⟨1, 1, [3 / 5]⟩, ⟨1, 1, [4 / 5]⟩, ⟨1, 1, [0]⟩,
        ⟨1, 1, [1]⟩, ⟨1, 1, [1]⟩, ⟨1, 1, [0]⟩] = some ⟨3, 1, outN⟩ ∧
      mexFunction [⟨3, 1, List.zipWith (fun m n => (2 : ℝ) * m + (-1) * n) [1, 2, 3] [4, 5, 6]⟩,
        ⟨1, 1, [3 / 5]⟩, ⟨1, 1, [4 / 5]⟩, ⟨1, 1, [0]⟩, ⟨1, 1, [1]⟩, ⟨1, 1, [1]⟩,
        ⟨1, 1, [0]⟩] =
        some ⟨3, 1, List.zipWith (fun m n => (2 : ℝ) * m + (-1) * n) outM outN⟩) ∧
    mexFunction [⟨3, 1, List.replicate (3 * 1) (0 : ℝ)⟩, ⟨1, 1, [3 / 5]⟩, ⟨1, 1, [4 / 5]⟩,
        ⟨1, 1, [0]⟩, ⟨1, 1, [1]⟩, ⟨1, 1, [1]⟩, ⟨1, 1, [0]⟩] =
      some ⟨3, 1, List.replicate (3 * 1) 0⟩) :=
  ⟨⟨rfl, rfl, rfl, rfl, rfl, rfl⟩,
    C17_linearity 1 1 [1, 2, 3] [4, 5, 6] [3 / 5] [4 / 5] [0] [1] 1 0 2 (-1)
      rfl rfl rfl rfl rfl rfl⟩

end Claims

end StimFit
